import Mathlib

/-!
Verification of the Acquire game server against its specification.

The definitions below are a shallow embedding of the JavaScript source:
- src/models/stock-market.js   (StockMarket)
- src/models/game.js           (Game orchestrator)
- src/models/board.js          (Board, flood fill)
- src/models/player.js         (Player)
- src/models/tile-manager.js   (TileManager)
- src/models/game-state.js     (GameStateManager, STATE_TRANSITIONS)
- src/models/game-config.js    (GAME_CONFIG, PRICE_RANGES)
- src/voice-handler.js         (VoiceHandler relay events)
- src/routers/game-router.js   (buy-stocks handler)

JavaScript numbers that can go negative (balances, share counts) are
modelled as Int; object mutation is modelled by value passing; maps of
corporations are association lists; JS exceptions are modelled by
Except / Option results carrying the (already mutated) state where the
source mutates before throwing.

The Corporation, TurnManager and Merger classes are not part of the
source tree (only their callers and tests are); where needed they are
modelled from the spec, marked by doc comments starting
"Modelled from the spec:".
-/

namespace Acquire

/-- Board position, from board.js / tile-manager.js. Coordinates are Int
because the flood fill in board.js probes x-1 / y-1 which may be negative. -/
structure Pos where
  x : Int
  y : Int
deriving DecidableEq, Repr

/-- A hand tile, from player.js / tile-manager.js: { position, isPlaced,
exchange }. The JS field exchange === "yes" is modelled as a Bool. -/
structure Tile where
  position : Pos
  isPlaced : Bool
  exchange : Bool
deriving DecidableEq, Repr

/-- A placed board tile, from board.js placeTile. -/
structure PlacedTile where
  position : Pos
  isPlaced : Bool
  belongsTo : String
deriving DecidableEq, Repr

/-- GAME_STATES from game-state.js. -/
inductive GameState where
  | setup
  | placeTile
  | tilePlaced
  | establishCorporation
  | buyStocks
  | gameEnd
  | merge
  | mergeConflict
  | acquirerSelection
  | defunctSelection
deriving DecidableEq, Repr

/-- STATE_TRANSITIONS from game-state.js: the fixed valid-transition table. -/
def STATE_TRANSITIONS : GameState → List GameState
  | .setup => [.placeTile]
  | .placeTile => [.tilePlaced, .establishCorporation, .buyStocks, .merge,
      .mergeConflict, .acquirerSelection]
  | .tilePlaced => [.placeTile, .gameEnd]
  | .establishCorporation => [.buyStocks]
  | .buyStocks => [.tilePlaced]
  | .merge => [.buyStocks, .merge, .acquirerSelection, .defunctSelection]
  | .mergeConflict => [.merge]
  | .acquirerSelection => [.merge, .defunctSelection]
  | .defunctSelection => [.merge]
  | .gameEnd => []

/-- GameStateManager.isMerging from game-state.js. -/
def isMerging (s : GameState) : Bool :=
  s = .merge ∨ s = .mergeConflict ∨ s = .acquirerSelection ∨ s = .defunctSelection

/-- GAME_CONFIG.GAME_END_SIZE from game-config.js. -/
def GAME_END_SIZE : Nat := 41

/-- PRICE_RANGES from game-config.js: (minSize, bonus) pairs, checked in order. -/
def PRICE_RANGES : List (Nat × Int) :=
  [(41, 900), (31, 800), (21, 700), (11, 600), (6, 500),
   (5, 400), (4, 300), (3, 200), (2, 100), (0, 0)]

/-- Size-band price bonus: the first PRICE_RANGES entry whose minSize is at
most the size. -/
def priceBonus (size : Nat) : Int :=
  ((PRICE_RANGES.find? (fun r => r.1 ≤ size)).map (·.2)).getD 0

/-- Corporation state. Modelled from the spec: the Corporation class is not
in the source tree (only callers and tests); spec section 3 gives its state
{ active, size, remainingShares, safe } plus a tier base price. Share counts
are Int because increment/decrement are unguarded. -/
structure Corporation where
  name : String
  isActive : Bool
  isSafe : Bool
  size : Nat
  stocks : Int
  basePrice : Int
deriving DecidableEq, Repr

/-- Derived values returned by Corporation.stats(). -/
structure CorpStats where
  isActive : Bool
  size : Nat
  stocks : Int
  price : Int
  majorityPrice : Int
  minorityPrice : Int
deriving DecidableEq, Repr

/-- Modelled from the spec: Corporation.stats() (class absent from source).
Spec sections 3 and 4.2: price = tier base + size-band bonus; majority
bonus = 10 x share price, minority bonus = 5 x share price; stats also
exposes the active flag, size and remaining shares (as read by the
StockMarket and the tests). -/
def Corporation.stats (c : Corporation) : CorpStats :=
  let price := c.basePrice + priceBonus c.size
  { isActive := c.isActive, size := c.size, stocks := c.stocks,
    price := price, majorityPrice := 10 * price, minorityPrice := 5 * price }

/-- Modelled from the spec: Corporation.decrementStocks (spec 4.2: buy
"decrements C.remainingShares"; the tests drive it with quantity 1). -/
def Corporation.decrementStocks (c : Corporation) (q : Int) : Corporation :=
  { c with stocks := c.stocks - q }

/-- Modelled from the spec: Corporation.incrementStocks (spec 4.2: sell
"returns shares to corporation"). -/
def Corporation.incrementStocks (c : Corporation) (q : Int) : Corporation :=
  { c with stocks := c.stocks + q }

/-- Modelled from the spec: Corporation.establish() sets the active flag. -/
def Corporation.establish (c : Corporation) : Corporation :=
  { c with isActive := true }

/-- Modelled from the spec: Corporation.increaseSize / grow(n). -/
def Corporation.increaseSize (c : Corporation) (n : Nat) : Corporation :=
  { c with size := c.size + n }

/-- Modelled from the spec: Corporation.markSafe(). -/
def Corporation.markSafe (c : Corporation) : Corporation :=
  { c with isSafe := true }

/-- The corporation ledger: Game holds corporations as an object keyed by
name; modelled as an association list so that Object.values / Object.entries
iteration order is preserved. -/
abbrev CorpMap := List (String × Corporation)

/-- Fallback corporation for a lookup of an unknown name (the JS source
would crash dereferencing undefined; claims only use present names). -/
def defaultCorp : Corporation :=
  { name := "", isActive := false, isSafe := false, size := 0, stocks := 0,
    basePrice := 0 }

/-- this.#corporations[name] lookup. -/
def getCorp (corps : CorpMap) (name : String) : Corporation :=
  ((corps.lookup name)).getD defaultCorp

/-- Write back a mutated corporation object under its key. -/
def updateCorp (corps : CorpMap) (name : String) (c : Corporation) : CorpMap :=
  corps.map (fun kv => if kv.1 = name then (kv.1, c) else kv)

/-- Player state, from player.js: username, balance, stocks map, hand
tiles (slots may hold undefined, hence Option), newTile, isTakingTurn. -/
structure Player where
  username : String
  balance : Int
  stocks : List (String × Int)
  tiles : List (Option Tile)
  newTile : Option Tile
  isTakingTurn : Bool
deriving DecidableEq, Repr

/-- portfolio().stocks[name] || 0, from stock-market.js call sites. -/
def getStock (p : Player) (name : String) : Int :=
  ((p.stocks.lookup name)).getD 0

/-- Player.addStocks: stocks[corp] += quantity (player.js). The JS version
requires the key to be present (all seven names are initialized at player
creation); a missing key is left unchanged here. -/
def Player.addStocks (p : Player) (corp : String) (q : Int) : Player :=
  { p with stocks := p.stocks.map (fun kv => if kv.1 = corp then (kv.1, kv.2 + q) else kv) }

/-- Player.sellStocks: stocks[corp] -= quantity (player.js). -/
def Player.sellStocks (p : Player) (corp : String) (q : Int) : Player :=
  { p with stocks := p.stocks.map (fun kv => if kv.1 = corp then (kv.1, kv.2 - q) else kv) }

/-- Player.addIncome (player.js). -/
def Player.addIncome (p : Player) (amount : Int) : Player :=
  { p with balance := p.balance + amount }

/-- Player.addExpense (player.js). -/
def Player.addExpense (p : Player) (amount : Int) : Player :=
  { p with balance := p.balance - amount }

/-- Player.startTurn (player.js). -/
def Player.startTurn (p : Player) : Player := { p with isTakingTurn := true }

/-- Player.endTurn (player.js). -/
def Player.endTurn (p : Player) : Player := { p with isTakingTurn := false }

/-! ## StockMarket (stock-market.js) -/

/-- StockMarket.buyStock: returns the JS boolean result together with the
mutated corporation map and player. -/
def buyStock (corps : CorpMap) (player : Player) (name : String) :
    Bool × CorpMap × Player :=
  let corporation := getCorp corps name
  let s := corporation.stats
  if ¬ s.isActive ∨ s.stocks < 1 ∨ player.balance < s.price then
    (false, corps, player)
  else
    (true,
     updateCorp corps name (corporation.decrementStocks 1),
     (player.addExpense s.price).addStocks name 1)

/-- One iteration of the StockMarket.buyStocks loop: attempt the purchase
and record the name when it succeeded. -/
def buyStocksStep (acc : List String × CorpMap × Player) (name : String) :
    List String × CorpMap × Player :=
  let r := buyStock acc.2.1 acc.2.2 name
  (if r.1 then acc.1 ++ [name] else acc.1, r.2.1, r.2.2)

/-- StockMarket.buyStocks: applies buyStock to each purchase entry in order
and collects the names of successful purchases. Each purchase entry in the
JS request body is an object destructured to its name. -/
def buyStocksBatch (corps : CorpMap) (player : Player) (purchases : List String) :
    List String × CorpMap × Player :=
  purchases.foldl buyStocksStep ([], corps, player)

/-- StockMarket.sellStock. Only the upper bound quantity > owned is guarded. -/
def sellStock (corps : CorpMap) (player : Player) (name : String) (quantity : Int) :
    Bool × CorpMap × Player :=
  let corporation := getCorp corps name
  let price := corporation.stats.price
  let owned := getStock player name
  if owned < quantity then
    (false, corps, player)
  else
    (true,
     updateCorp corps name (corporation.incrementStocks quantity),
     ((player.sellStocks name quantity).addIncome (quantity * price)))

/-- StockMarket.tradeStocks: 2-for-1 trade of defunct shares into acquirer
shares, acquirerQuantity = Math.floor(defunctQuantity / 2). The two
corporation writes are applied sequentially against the evolving map,
matching JS reference semantics if the two names coincide. -/
def tradeStocks (corps : CorpMap) (player : Player)
    (defunctName acquirerName : String) (defunctQuantity : Int) :
    Bool × CorpMap × Player :=
  let acquirer := getCorp corps acquirerName
  let owned := getStock player defunctName
  let acquirerQuantity := Int.fdiv defunctQuantity 2
  if owned < defunctQuantity ∨ acquirer.stocks < acquirerQuantity then
    (false, corps, player)
  else
    let corps1 := updateCorp corps defunctName
      ((getCorp corps defunctName).incrementStocks defunctQuantity)
    let corps2 := updateCorp corps1 acquirerName
      ((getCorp corps1 acquirerName).decrementStocks acquirerQuantity)
    (true, corps2,
     (player.sellStocks defunctName defunctQuantity).addStocks acquirerName acquirerQuantity)

/-- Stable ascending insertion sort then reverse: the JS pipeline
Object.entries(groupBy ...) followed by sort((a, b) => b.stock - a.stock)
yields the distinct share counts in descending order. -/
def sortIntDesc (l : List Int) : List Int :=
  (l.insertionSort (· ≤ ·)).reverse

/-- One shareholder group of StockMarket.findShareholderGroups. -/
structure ShareGroup where
  stock : Int
  players : List Player
deriving DecidableEq, Repr

/-- Result of StockMarket.findShareholderGroups. -/
structure ShareholderGroups where
  majority : ShareGroup
  minority : ShareGroup
deriving DecidableEq, Repr

/-- StockMarket.findShareholderGroups: stockholders (holders of at least one
share) are grouped by share count (lodash groupBy keeps the original order
inside every group), the groups are sorted by count descending, and the
first two groups are the majority and minority (defaulting to empty). -/
def findShareholderGroups (players : List Player) (name : String) :
    ShareholderGroups :=
  let stockholders := players.filter (fun p => 0 < getStock p name)
  if stockholders.isEmpty then
    ⟨⟨0, []⟩, ⟨0, []⟩⟩
  else
    let counts := sortIntDesc (stockholders.map (fun p => getStock p name)).dedup
    match counts with
    | [] => ⟨⟨0, []⟩, ⟨0, []⟩⟩
    | c1 :: rest =>
      let majority : ShareGroup := ⟨c1, stockholders.filter (fun p => getStock p name = c1)⟩
      let minority : ShareGroup :=
        match rest with
        | [] => ⟨0, []⟩
        | c2 :: _ => ⟨c2, stockholders.filter (fun p => getStock p name = c2)⟩
      ⟨majority, minority⟩

/-- forEach(player => player.addIncome(amount)) over a group whose members
are elements of the player list: every player list entry belonging to the
group is credited. -/
def payAll (amount : Int) (group : List Player) (players : List Player) :
    List Player :=
  players.map (fun p => if p ∈ group then p.addIncome amount else p)

/-- StockMarket.distributeBonuses, payments only (the returned stats object
is not modelled; the claim is about the payments). Math.floor of the share
divisions is Int.fdiv; a division by zero group size pays nothing, like the
NaN the JS produces in that (unreached) case. -/
def distributeBonuses (corps : CorpMap) (players : List Player) (name : String) :
    List Player :=
  let s := (getCorp corps name).stats
  let g := findShareholderGroups players name
  if 1 < g.majority.players.length ∨ g.minority.players.length = 0 then
    let totalBonus := s.majorityPrice + s.minorityPrice
    let sharePrice := Int.fdiv totalBonus (g.majority.players.length : Int)
    payAll sharePrice g.majority.players players
  else
    let players1 :=
      match g.majority.players with
      | [] => players
      | p0 :: _ => players.map (fun p => if p = p0 then p.addIncome s.majorityPrice else p)
    let minorityShare := Int.fdiv s.minorityPrice (g.minority.players.length : Int)
    payAll minorityShare g.minority.players players1

/-- One iteration of the StockMarket.liquidateCorporation forEach: a player
with a positive holding sells it all (quantity times price) and the shares
accumulate back onto the corporation object. -/
def liquidateStep (name : String) (price : Int)
    (acc : Corporation × List Player) (p : Player) : Corporation × List Player :=
  let quantity := getStock p name
  if 0 < quantity then
    (acc.1.incrementStocks quantity,
     acc.2 ++ [(p.sellStocks name quantity).addIncome (quantity * price)])
  else
    (acc.1, acc.2 ++ [p])

/-- StockMarket.liquidateCorporation: every player with a positive holding
sells it all at the current price; the shares accumulate back onto the
corporation object. The active flag is not touched by the source. -/
def liquidateCorporation (corps : CorpMap) (players : List Player) (name : String) :
    CorpMap × List Player :=
  let price := (getCorp corps name).stats.price
  let res := players.foldl (liquidateStep name price) (getCorp corps name, [])
  (updateCorp corps name res.1, res.2)

/-- The effect of the liquidation loop on one player. -/
def liquidatePlayer (name : String) (price : Int) (p : Player) : Player :=
  if 0 < getStock p name then
    (p.sellStocks name (getStock p name)).addIncome (getStock p name * price)
  else p

/-- A placeholder player (used as the List.getD default in theorem
statements about player lists). -/
def dummyPlayer : Player :=
  { username := "", balance := 0, stocks := [], tiles := [], newTile := none,
    isTakingTurn := false }

/-! ## Board (board.js) -/

/-- Board.getTileAt: first placed tile at the coordinates. -/
def getTileAt (board : List PlacedTile) (x y : Int) : Option PlacedTile :=
  board.find? (fun t => t.position.x = x ∧ t.position.y = y)

/-- Board.#floodFill: depth-first 4-neighbour flood fill with a visited set.
The JS recursion is unbounded; here a fuel argument bounds the depth, and
findConnectedTiles supplies fuel larger than any reachable depth (one fuel
unit is consumed per call, and the meaningful nesting depth is bounded by
the number of placed tiles). -/
def floodFill (board : List PlacedTile) :
    Nat → List (Int × Int) → List PlacedTile → Int → Int →
    List (Int × Int) × List PlacedTile
  | 0, visited, connected, _, _ => (visited, connected)
  | fuel + 1, visited, connected, x, y =>
    if (x, y) ∈ visited then (visited, connected)
    else
      match getTileAt board x y with
      | none => (visited, connected)
      | some tile =>
        let visited := (x, y) :: visited
        let connected := connected ++ [tile]
        let r1 := floodFill board fuel visited connected (x + 1) y
        let r2 := floodFill board fuel r1.1 r1.2 (x - 1) y
        let r3 := floodFill board fuel r2.1 r2.2 x (y + 1)
        let r4 := floodFill board fuel r3.1 r3.2 x (y - 1)
        r4

/-- Board.findConnectedTiles. -/
def findConnectedTiles (board : List PlacedTile) (pos : Pos) : List PlacedTile :=
  (floodFill board (board.length + 1) [] [] pos.x pos.y).2

/-- Board.getAdjacentTiles: the placed tiles among the four neighbours. -/
def getAdjacentTiles (board : List PlacedTile) (pos : Pos) : List PlacedTile :=
  ([getTileAt board (pos.x + 1) pos.y,
    getTileAt board (pos.x - 1) pos.y,
    getTileAt board pos.x (pos.y + 1),
    getTileAt board pos.x (pos.y - 1)]).filterMap id

/-- Key list of lodash groupBy(tiles, belongsTo): the distinct belongsTo
values in order of first occurrence. -/
def groupKeys (tiles : List PlacedTile) : List String :=
  (tiles.map (·.belongsTo)).foldl
    (fun acc k => if k ∈ acc then acc else acc ++ [k]) []

/-- Number of tiles of a groupBy bucket (empty bucket for an absent key). -/
def groupSize (tiles : List PlacedTile) (key : String) : Nat :=
  (tiles.filter (·.belongsTo = key)).length

/-! ## Hand tiles (player.js) -/

/-- Player.placeTile: find the first hand tile at the position (slots may be
empty), then reject a placed or exchangeable tile, else mark it placed.
Returns the new hand or the thrown error message. -/
def placeTileInHand : List (Option Tile) → Pos → Except String (List (Option Tile))
  | [], _ => .error "Tile not found in player's hand"
  | none :: rest, pos => (placeTileInHand rest pos).map (none :: ·)
  | some t :: rest, pos =>
    if t.position = pos then
      if t.isPlaced then .error "Tile already placed"
      else if t.exchange then .error "Cannot place unplayable tile"
      else .ok (some { t with isPlaced := true } :: rest)
    else
      (placeTileInHand rest pos).map (some t :: ·)

/-- Player.#replaceWithUsedTile: the first occupied slot whose tile is
placed is overwritten with the new tile (which may be absent). -/
def replaceWithUsedTile : List (Option Tile) → Option Tile → List (Option Tile)
  | [], _ => []
  | some t :: rest, newTile =>
    if t.isPlaced then newTile :: rest
    else some t :: replaceWithUsedTile rest newTile
  | none :: rest, newTile => none :: replaceWithUsedTile rest newTile

/-- Player.refillTile. -/
def Player.refillTile (p : Player) (newTile : Option Tile) : Player :=
  { p with newTile := newTile, tiles := replaceWithUsedTile p.tiles newTile }

/-! ## Turn transcript -/

/-- Modelled from the spec: the TurnManager class is absent from the source
tree. Spec section 3: a turn is an ordered sequence of activities, each
tagged with a kind and carrying kind-specific data; only the current and
previous turns are retained. An event is either the opening of an activity
(initiateActivity) or attached data (consolidateActivity). -/
inductive TurnEvent where
  | opened (kind : String)
  | dataTile (t : PlacedTile)
  | dataName (s : String)
  | dataNames (ls : List String)
  | dataMerge (acquirer defunct : String)
deriving DecidableEq, Repr

/-- Modelled from the spec: TurnManager retains the current and the
immediately previous turn transcript. -/
structure TurnRec where
  current : List TurnEvent
  previous : List TurnEvent
deriving DecidableEq, Repr

/-! ## Game (game.js) -/

/-- Modelled from the spec: the Merger class is absent from the source tree.
Spec section 4.5: a merge is initiated by picking (acquirer, defunct);
Merger.start records the pair, exposed by the acquirer / defunct getters
read back in Game.mergeTwoCorporation. The per-player deal walk is not
needed by any claim. -/
structure MergerRec where
  acquirer : String
  defunct : String
deriving DecidableEq, Repr

/-- The GameStateManager metadata bag, flattened to the fields the source
stores in it (setInfo merges keys; forceTransition replaces the bag). -/
structure StateInfo where
  acquirer : Option String
  defunct : Option String
  isMergeConflict : Bool
  equalCorporations : List String
deriving DecidableEq, Repr

/-- The empty metadata bag (the default info = {} of forceTransition). -/
def StateInfo.empty : StateInfo :=
  { acquirer := none, defunct := none, isMergeConflict := false,
    equalCorporations := [] }

/-- The Game orchestrator state: the components of game.js reached by the
claims (players, corporation ledger, board, tile stack, state machine,
transcript, merger, connected-tiles cache, result snapshot). -/
structure Game where
  players : List Player
  corporations : CorpMap
  board : List PlacedTile
  tiles : List Tile
  state : GameState
  stateInfo : StateInfo
  turnCount : Nat
  connectedTiles : List PlacedTile
  turnRec : TurnRec
  merger : Option MergerRec
  result : Option (List Player)
deriving DecidableEq, Repr

/-- GameStateManager.forceTransition(state, info = {}). -/
def force (g : Game) (s : GameState) (info : StateInfo := StateInfo.empty) : Game :=
  { g with state := s, stateInfo := info }

/-- TurnManager.initiateActivity. -/
def initiateActivity (g : Game) (kind : String) : Game :=
  { g with turnRec := { g.turnRec with current := g.turnRec.current ++ [.opened kind] } }

/-- TurnManager.consolidateActivity. -/
def consolidateActivity (g : Game) (e : TurnEvent) : Game :=
  { g with turnRec := { g.turnRec with current := g.turnRec.current ++ [e] } }

/-- Game.#currentPlayer: players[turnCount % players.length]. -/
def currentPlayer (g : Game) : Option Player :=
  g.players.get? (g.turnCount % g.players.length)

/-- Replace the current player object after mutating it. -/
def setCurrentPlayer (g : Game) (p : Player) : Game :=
  { g with players := g.players.set (g.turnCount % g.players.length) p }

/-- Game.#canEstablishCorporation. -/
def canEstablishCorporation (g : Game) : Bool :=
  g.corporations.any (fun kv => ¬ kv.2.isActive) ∧
  (groupKeys g.connectedTiles).length = 1 ∧
  1 < groupSize g.connectedTiles "incorporated"

/-- Game.#canGrowCorporation. -/
def canGrowCorporation (g : Game) : Bool :=
  (groupKeys g.connectedTiles).length = 2 ∧
  1 ≤ groupSize g.connectedTiles "incorporated"

/-- Game.#findMergingCorporations: the corporations of the connected
component (other than "incorporated"), stably sorted by size ascending
(lodash sortBy) and reversed. -/
def findMergingCorporations (g : Game) : List Corporation :=
  let corporatedTiles := g.connectedTiles.filter (fun t => ¬ t.belongsTo = "incorporated")
  let names := (corporatedTiles.map (·.belongsTo)).foldl
    (fun acc k => if k ∈ acc then acc else acc ++ [k]) []
  let corps := names.map (getCorp g.corporations)
  (corps.insertionSort (fun a b => a.size ≤ b.size)).reverse

/-- Game.#hasTwoCorpMerge. -/
def hasTwoCorpMerge (g : Game) : Bool :=
  (groupKeys g.connectedTiles).length = 3

/-- Game.#hasMergeConflict: three groups and the two largest merging
corporations are size-tied. -/
def hasMergeConflict (g : Game) : Bool :=
  if (groupKeys g.connectedTiles).length ≠ 3 then false
  else
    match findMergingCorporations g with
    | c1 :: c2 :: _ => c1.size = c2.size
    | _ => false

/-- Game.#hasMultipleMerge. -/
def hasMultipleMerge (g : Game) : Bool :=
  3 < (groupKeys g.connectedTiles).length

/-- Game.#markUnplayableTiles: every unplaced hand tile whose neighbours
span two or more safe corporations becomes exchangeable. -/
def markUnplayableTiles (g : Game) : Game :=
  let markTile := fun (slot : Option Tile) =>
    match slot with
    | none => none
    | some tile =>
      if tile.isPlaced then some tile
      else
        let adjacentCorps := groupKeys (getAdjacentTiles g.board tile.position)
        let safeCorporations := adjacentCorps.filter (fun corp =>
          ¬ corp = "incorporated" ∧
          (((g.corporations.lookup corp)).map (·.isSafe)).getD false)
        if 1 < safeCorporations.length then some { tile with exchange := true }
        else some tile
  { g with players := g.players.map (fun p => { p with tiles := p.tiles.map markTile }) }

/-- Game.#growCorporation: assign the connected "incorporated" tiles to the
corporation (the board and the connected-tiles cache alias the same tile
objects), grow its size outside a merge, and mark it safe past size 10. -/
def growCorporation (g : Game) (name : String) : Game :=
  let incorporatedTiles := g.connectedTiles.filter (fun t => t.belongsTo = "incorporated")
  let reassign := fun (t : PlacedTile) =>
    if t ∈ incorporatedTiles then { t with belongsTo := name } else t
  let g := { g with
    board := g.board.map reassign,
    connectedTiles := g.connectedTiles.map reassign }
  let corporation := getCorp g.corporations name
  let corporation :=
    if ¬ isMerging g.state then corporation.increaseSize incorporatedTiles.length
    else corporation
  let g := { g with corporations := updateCorp g.corporations name corporation }
  if 10 < corporation.stats.size then
    markUnplayableTiles { g with
      corporations := updateCorp g.corporations name corporation.markSafe }
  else g

/-- Game.mergeTwoCorporation: record the merger pair (Merger.start),
distribute bonuses on the defunct, enter the merge state with the pair as
metadata and record the merge activity. -/
def mergeTwoCorporation (g : Game) (acquirer defunct : String) : Game :=
  let merger : MergerRec := { acquirer := acquirer, defunct := defunct }
  let players := distributeBonuses g.corporations g.players defunct
  let g := { g with merger := some merger, players := players }
  let g := force g .merge
    { StateInfo.empty with acquirer := some merger.acquirer, defunct := some merger.defunct }
  let g := initiateActivity g "merge"
  consolidateActivity g (.dataMerge merger.acquirer merger.defunct)

/-- Game.#handleMergeConflict. -/
def handleMergeConflict (g : Game) : Game :=
  let g := force g .mergeConflict
  let equalCorporations := (findMergingCorporations g).map (·.name)
  let g := initiateActivity g "merge-conflict"
  let g := { g with stateInfo := { g.stateInfo with
    isMergeConflict := true, equalCorporations := equalCorporations } }
  consolidateActivity g (.dataNames equalCorporations)

/-- Game.#handleMultipleDefunct: enter defunct-selection preserving the
current metadata. -/
def handleMultipleDefunct (g : Game) (potentialDefunct : List Corporation) : Game :=
  let g := force g .defunctSelection g.stateInfo
  let defunctNames := potentialDefunct.map (·.name)
  let g := initiateActivity g "defunct-selection"
  consolidateActivity g (.dataNames defunctNames)

/-- Game.#handleMultipleMerge. The source dereferences the first merging
corporation and the first potential defunct unconditionally; the branches
where those do not exist (impossible for a component with more than three
groups) leave the game unchanged, standing in for the JS TypeError. -/
def handleMultipleMerge (g : Game) : Game :=
  match findMergingCorporations g with
  | [] => g
  | m0 :: rest =>
    let mergingCorporations := m0 :: rest
    let acquirerSize := m0.size
    let potentialAcquirers := mergingCorporations.filter (fun c => c.size = acquirerSize)
    if 1 < potentialAcquirers.length then
      let g := force g .acquirerSelection
      let acquirerNames := potentialAcquirers.map (·.name)
      let g := initiateActivity g "acquirer-selection"
      consolidateActivity g (.dataNames acquirerNames)
    else
      match potentialAcquirers with
      | [] => g
      | acquirer :: _ =>
        let g := { g with stateInfo := { g.stateInfo with acquirer := some acquirer.name } }
        let potentialDefunct := mergingCorporations.filter (fun c => ¬ c.size = acquirerSize)
        match potentialDefunct with
        | [] => g
        | d0 :: _ =>
          let equalDefunct := potentialDefunct.filter (fun c => c.size = d0.size)
          if 1 < equalDefunct.length then handleMultipleDefunct g equalDefunct
          else mergeTwoCorporation g acquirer.name d0.name

/-- Game.#handleTilePlacement: the decision cascade that dispatches a placed
tile to establish / grow / merge handling and fixes the next state. -/
def handleTilePlacement (g : Game) : Game :=
  if canEstablishCorporation g then
    initiateActivity (force g .establishCorporation) "establish"
  else if canGrowCorporation g then
    match (groupKeys g.connectedTiles).find? (fun n => ¬ n = "incorporated") with
    | none => g
    | some corpName =>
      let g := growCorporation g corpName
      initiateActivity (force g .buyStocks) "buy-stocks"
  else if hasMergeConflict g then
    handleMergeConflict g
  else if hasMultipleMerge g then
    handleMultipleMerge g
  else if hasTwoCorpMerge g then
    match findMergingCorporations g with
    | acquirer :: defunct :: _ => mergeTwoCorporation g acquirer.name defunct.name
    | _ => g
  else
    initiateActivity (force g .buyStocks) "buy-stocks"

/-- Game.placeTile: the board gains the tile and the transcript gains the
activity data before the hand tile is validated; a validation error
therefore propagates alongside the already mutated game, exactly as the JS
leaves its mutations behind when Player.placeTile throws. -/
def Game.placeTile (g : Game) (username : String) (pos : Pos) :
    Game × Option String :=
  let player? := g.players.find? (fun p => p.username = username)
  let tile : PlacedTile := { position := pos, isPlaced := true, belongsTo := "incorporated" }
  let g := { g with board := g.board ++ [tile] }
  let g := consolidateActivity g (.dataTile tile)
  let g := { g with connectedTiles := findConnectedTiles g.board pos }
  match player? with
  | none => (g, some "player not found")
  | some player =>
    match placeTileInHand player.tiles pos with
    | .error e => (g, some e)
    | .ok hand =>
      let player := { player with tiles := hand }
      let g := { g with players := g.players.map (fun q =>
        if q.username = username then player else q) }
      (handleTilePlacement g, none)

/-- Game.#checkGameEnd. -/
def checkGameEnd (corps : CorpMap) : Bool :=
  let activeCorporations := corps.filter (fun kv => kv.2.isActive)
  if activeCorporations.length = 0 then false
  else
    activeCorporations.any (fun kv => GAME_END_SIZE ≤ kv.2.size) ∨
    activeCorporations.all (fun kv => kv.2.isSafe)

/-- Game.#calculateFinalEarnings and #endGame: enter game-end, then for
every active corporation distribute bonuses and liquidate it, and snapshot
the final players. -/
def endGame (g : Game) : Game :=
  let g := force g .gameEnd
  let activeCorporations := g.corporations.filter (fun kv => kv.2.isActive)
  let final := activeCorporations.foldl
    (fun (acc : CorpMap × List Player) kv =>
      let players := distributeBonuses acc.1 acc.2 kv.1
      liquidateCorporation acc.1 players kv.1)
    (g.corporations, g.players)
  { g with corporations := final.1, players := final.2, result := some final.2 }

/-- TileManager.pickTile: shift the head of the stack (absent when empty). -/
def pickTile (tiles : List Tile) : Option Tile × List Tile :=
  (tiles.head?, tiles.tail)

/-- The exchange pass of Game.#refillPlayerTile: each exchangeable hand
tile is replaced by a fresh pick from the stack. -/
def exchangeTilesPass : List (Option Tile) → List Tile →
    List (Option Tile) × List Tile
  | [], stack => ([], stack)
  | slot :: rest, stack =>
    match slot with
    | some t =>
      if t.exchange then
        let (picked, stack1) := pickTile stack
        let (others, stack2) := exchangeTilesPass rest stack1
        (picked :: others, stack2)
      else
        let (others, stack1) := exchangeTilesPass rest stack
        (some t :: others, stack1)
    | none =>
      let (others, stack1) := exchangeTilesPass rest stack
      (none :: others, stack1)

/-- Game.#refillPlayerTile. -/
def refillPlayerTile (g : Game) : Game :=
  match currentPlayer g with
  | none => g
  | some cp =>
    let (newTile, stack1) := pickTile g.tiles
    let cp := cp.refillTile newTile
    let (hand, stack2) := exchangeTilesPass cp.tiles stack1
    setCurrentPlayer { g with tiles := stack2 } { cp with tiles := hand }

/-- this.#currentPlayer().endTurn() of game.js (a missing current player,
impossible for a non-empty player list, is a no-op). -/
def endTurnCurrent (g : Game) : Game :=
  match currentPlayer g with
  | none => g
  | some cp => setCurrentPlayer g cp.endTurn

/-- this.#currentPlayer().startTurn() of game.js. -/
def startTurnCurrent (g : Game) : Game :=
  match currentPlayer g with
  | none => g
  | some cp => setCurrentPlayer g cp.startTurn

/-- Game.changeTurn: end the game when the game-end condition holds,
otherwise refill, rotate the current player, reset the state to place-tile
and advance the transcript (the current turn becomes the previous one). -/
def changeTurn (g : Game) : Game :=
  if checkGameEnd g.corporations then endGame g
  else
    let g1 := refillPlayerTile g
    let g2 := endTurnCurrent g1
    let g3 := { g2 with turnCount := g2.turnCount + 1 }
    let g4 := startTurnCurrent g3
    let g5 := force g4 .placeTile
    let g6 := { g5 with turnRec := { current := [], previous := g5.turnRec.current } }
    initiateActivity g6 "tile-place"

/-- Game.buyStocks: delegate the batch to the stock market for the current
player, enter tile-placed and record the purchased names. -/
def Game.buyStocks (g : Game) (stocks : List String) : Game :=
  match currentPlayer g with
  | none => g
  | some player =>
    let (purchased, corps, player) := buyStocksBatch g.corporations player stocks
    let g := setCurrentPlayer { g with corporations := corps } player
    let g := force g .tilePlaced
    consolidateActivity g (.dataNames purchased)

/-- The buy-stocks route handler of the game router: the request body is
handed to Game.buyStocks unchanged (no truncation happens at the router
boundary). -/
def routerBuyStocks (g : Game) (body : List String) : Game :=
  Game.buyStocks g body

/-! ## Voice signaling (voice-handler.js) -/

/-- A connected /voice socket: its socket id, user name and the voice room
it joined, if any (VoiceHandler tracks users as socketId to roomId). -/
structure VSocket where
  sid : String
  username : String
  room : Option String
deriving DecidableEq, Repr

/-- A delivered relay payload: recipient socket id, sender socket id and
the forwarded payload. -/
structure Delivery where
  recipient : String
  sender : String
  payload : String
deriving DecidableEq, Repr

/-- The voice:offer relay handler: when targetId and offer are both
present, namespace.to(targetId) delivers to exactly the sockets whose id is
targetId (every socket.io socket is a member of the room named by its own
id); no room-membership condition is evaluated. -/
def relayOffer (sockets : List VSocket) (senderId : String)
    (targetId : Option String) (offer : Option String) : List Delivery :=
  match targetId, offer with
  | some t, some o =>
    (sockets.filter (fun s => s.sid = t)).map
      (fun s => { recipient := s.sid, sender := senderId, payload := o })
  | _, _ => []

/-- The voice:answer relay handler (same shape as the offer relay). -/
def relayAnswer (sockets : List VSocket) (senderId : String)
    (targetId : Option String) (answer : Option String) : List Delivery :=
  match targetId, answer with
  | some t, some a =>
    (sockets.filter (fun s => s.sid = t)).map
      (fun s => { recipient := s.sid, sender := senderId, payload := a })
  | _, _ => []

/-- The voice:ice relay handler: only targetId is checked; the candidate is
forwarded even when absent (modelled by the empty payload default). -/
def relayIceCandidate (sockets : List VSocket) (senderId : String)
    (targetId : Option String) (candidate : Option String) : List Delivery :=
  match targetId with
  | some t =>
    (sockets.filter (fun s => s.sid = t)).map
      (fun s => { recipient := s.sid, sender := senderId,
                  payload := candidate.getD "" })
  | none => []

/-! ## Spec-side definitions for the bonus-distribution claim

These definitions follow the specification's wording ("top share-count
group", "second share-count group") and are compared against the source's
findShareholderGroups. -/

/-- The shareholders of a corporation: players holding at least one share. -/
def shareholders (players : List Player) (name : String) : List Player :=
  players.filter (fun p => 0 < getStock p name)

/-- The top share count among the shareholders (0 when there are none). -/
def topCount (players : List Player) (name : String) : Int :=
  ((shareholders players name).map (fun p => getStock p name)).foldl max 0

/-- The top share-count group: shareholders holding the top count. -/
def topGroup (players : List Player) (name : String) : List Player :=
  (shareholders players name).filter (fun p => getStock p name = topCount players name)

/-- Whether a second share-count group exists: some shareholder holds
strictly fewer shares than the top count. -/
def hasSecondGroup (players : List Player) (name : String) : Bool :=
  (shareholders players name).any (fun p => getStock p name < topCount players name)

/-- The second-highest share count (0 when no second group exists). -/
def secondCount (players : List Player) (name : String) : Int :=
  (((shareholders players name).map (fun p => getStock p name)).filter
    (fun c => c < topCount players name)).foldl max 0

/-- The second share-count group. -/
def secondGroup (players : List Player) (name : String) : List Player :=
  if hasSecondGroup players name then
    (shareholders players name).filter (fun p => getStock p name = secondCount players name)
  else []

/-- The payout the claim assigns to a player: the whole pool split among a
tied (or solitary) top group, otherwise the majority bonus to the single
top player and the split minority bonus to the second group; nothing to
anyone else. -/
def claimPayout (corps : CorpMap) (players : List Player) (name : String)
    (p : Player) : Int :=
  let s := (getCorp corps name).stats
  if 1 < (topGroup players name).length ∨ (secondGroup players name).length = 0 then
    if p ∈ topGroup players name then
      Int.fdiv (s.majorityPrice + s.minorityPrice) ((topGroup players name).length : Int)
    else 0
  else
    if p ∈ topGroup players name then s.majorityPrice
    else if p ∈ secondGroup players name then
      Int.fdiv s.minorityPrice ((secondGroup players name).length : Int)
    else 0

/-! ## Concrete inputs for witnesses and counterexamples -/

/-- An active premium-tier corporation of size 2 (price 200). -/
def phoenixEx : Corporation :=
  { name := "phoenix", isActive := true, isSafe := false, size := 2,
    stocks := 25, basePrice := 100 }

/-- An active corporation of size 3 (price 500). -/
def quantumEx : Corporation :=
  { name := "quantum", isActive := true, isSafe := false, size := 3,
    stocks := 21, basePrice := 300 }

/-- A two-corporation ledger. -/
def corpsEx : CorpMap := [("phoenix", phoenixEx), ("quantum", quantumEx)]

/-- A player with the given balance and phoenix / quantum holdings. -/
def mkPlayer (u : String) (b : Int) (ph q : Int) : Player :=
  { username := u, balance := b, stocks := [("phoenix", ph), ("quantum", q)],
    tiles := [], newTile := none, isTakingTurn := false }

/-- Corporations for the multi-merge placement: one largest acquirer and
two size-tied defuncts. -/
def corpsMulti : CorpMap :=
  [("phoenix", { name := "phoenix", isActive := true, isSafe := false,
                 size := 5, stocks := 25, basePrice := 300 }),
   ("quantum", { name := "quantum", isActive := true, isSafe := false,
                 size := 3, stocks := 25, basePrice := 300 }),
   ("hydra",   { name := "hydra", isActive := true, isSafe := false,
                 size := 3, stocks := 25, basePrice := 200 })]

/-- A board where the cell (1,1) touches tiles of phoenix, quantum and
hydra. -/
def boardMulti : List PlacedTile :=
  [{ position := ⟨0, 1⟩, isPlaced := true, belongsTo := "phoenix" },
   { position := ⟨2, 1⟩, isPlaced := true, belongsTo := "quantum" },
   { position := ⟨1, 0⟩, isPlaced := true, belongsTo := "hydra" }]

/-- The current player, holding the (1,1) tile. -/
def aliceMulti : Player :=
  { username := "alice", balance := 6000,
    stocks := [("phoenix", 0), ("quantum", 0), ("hydra", 0)],
    tiles := [some { position := ⟨1, 1⟩, isPlaced := false, exchange := false }],
    newTile := none, isTakingTurn := true }

/-- A reachable place-tile game whose pending placement at (1,1) joins one
largest corporation and two size-tied smaller ones. -/
def gameMulti : Game :=
  { players := [aliceMulti], corporations := corpsMulti, board := boardMulti,
    tiles := [], state := .placeTile, stateInfo := StateInfo.empty,
    turnCount := 0, connectedTiles := [],
    turnRec := { current := [], previous := [] }, merger := none, result := none }

/-- A buy-stocks game with a rich current player. -/
def gameBuy : Game :=
  { players := [mkPlayer "alice" 6000 0 0], corporations := corpsEx,
    board := [], tiles := [], state := .buyStocks,
    stateInfo := StateInfo.empty, turnCount := 0, connectedTiles := [],
    turnRec := { current := [], previous := [] }, merger := none, result := none }

/-- The buy-stocks game put back into the place-tile state with an empty
connected component (a lone tile dispatch). -/
def gameBuyStatePlace : Game := { gameBuy with state := .placeTile }

/-- A game whose only active corporation reached size 41. -/
def gameSize41 : Game :=
  { gameBuy with
    state := .tilePlaced,
    corporations :=
      [("phoenix", { name := "phoenix", isActive := true, isSafe := false,
                     size := 41, stocks := 25, basePrice := 300 })] }

/-- A /voice socket that joined room r1. -/
def sock1 : VSocket := { sid := "s1", username := "ann", room := some "r1" }

/-- A /voice socket that joined room r2. -/
def sock2 : VSocket := { sid := "s2", username := "bob", room := some "r2" }

end Acquire

namespace Acquire

/-! ## Helper lemmas -/

theorem lookup_map_modify {β : Type} (l : List (String × β)) (k : String)
    (f : β → β) :
    (l.map (fun kv => if kv.1 = k then (kv.1, f kv.2) else kv)).lookup k
      = (l.lookup k).map f := by
  induction l with
  | nil => simp
  | cons kv rest ih =>
    simp only [List.map_cons]
    by_cases h : kv.1 = k
    · rw [if_pos h]
      have h2 : (k == kv.1) = true := by simp [beq_iff_eq, h.symm]
      simp [List.lookup, h2]
    · rw [if_neg h]
      have h2 : (k == kv.1) = false := by
        simp only [beq_eq_false_iff_ne, ne_eq]
        exact fun e => h e.symm
      simp [List.lookup, h2, ih]

theorem lookup_map_modify_ne {β : Type} (l : List (String × β)) (k k2 : String)
    (f : β → β) (h : k2 ≠ k) :
    (l.map (fun kv => if kv.1 = k then (kv.1, f kv.2) else kv)).lookup k2
      = l.lookup k2 := by
  induction l with
  | nil => simp
  | cons kv rest ih =>
    simp only [List.map_cons]
    by_cases hk : kv.1 = k
    · rw [if_pos hk]
      have h2 : (k2 == kv.1) = false := by
        simp only [beq_eq_false_iff_ne, ne_eq]
        exact fun e => h (e ▸ hk)
      have h3 : (k2 == k) = false := by
        simp only [beq_eq_false_iff_ne, ne_eq]
        exact h
      simp [List.lookup, h2, h3, ih, hk]
    · rw [if_neg hk]
      by_cases h3 : k2 = kv.1
      · have h4 : (k2 == kv.1) = true := by simp [beq_iff_eq, h3]
        simp [List.lookup, h4]
      · have h4 : (k2 == kv.1) = false := by
          simp only [beq_eq_false_iff_ne, ne_eq]
          exact h3
        simp [List.lookup, h4, ih]

theorem getCorp_updateCorp (corps : CorpMap) (name : String) (c : Corporation)
    (h : (corps.lookup name).isSome) :
    getCorp (updateCorp corps name c) name = c := by
  unfold getCorp updateCorp
  rw [lookup_map_modify corps name (fun _ => c)]
  cases hx : corps.lookup name with
  | none => rw [hx] at h; simp at h
  | some v => simp

theorem getCorp_updateCorp_ne (corps : CorpMap) (name k : String)
    (c : Corporation) (h : k ≠ name) :
    getCorp (updateCorp corps name c) k = getCorp corps k := by
  unfold getCorp updateCorp
  rw [lookup_map_modify_ne corps name k (fun _ => c) h]

theorem lookup_updateCorp (corps : CorpMap) (name : String) (c : Corporation) :
    (updateCorp corps name c).lookup name = (corps.lookup name).map (fun _ => c) := by
  unfold updateCorp
  exact lookup_map_modify corps name (fun _ => c)

theorem getStock_addStocks (p : Player) (k : String) (q : Int)
    (h : (p.stocks.lookup k).isSome) :
    getStock (p.addStocks k q) k = getStock p k + q := by
  unfold getStock Player.addStocks
  rw [lookup_map_modify p.stocks k (fun v => v + q)]
  cases hx : p.stocks.lookup k with
  | none => rw [hx] at h; simp at h
  | some v => simp

theorem getStock_sellStocks (p : Player) (k : String) (q : Int)
    (h : (p.stocks.lookup k).isSome) :
    getStock (p.sellStocks k q) k = getStock p k - q := by
  unfold getStock Player.sellStocks
  rw [lookup_map_modify p.stocks k (fun v => v - q)]
  cases hx : p.stocks.lookup k with
  | none => rw [hx] at h; simp at h
  | some v => simp

theorem getStock_addStocks_ne (p : Player) (k k2 : String) (q : Int)
    (h : k2 ≠ k) :
    getStock (p.addStocks k q) k2 = getStock p k2 := by
  unfold getStock Player.addStocks
  rw [lookup_map_modify_ne p.stocks k k2 (fun v => v + q) h]

theorem getStock_sellStocks_ne (p : Player) (k k2 : String) (q : Int)
    (h : k2 ≠ k) :
    getStock (p.sellStocks k q) k2 = getStock p k2 := by
  unfold getStock Player.sellStocks
  rw [lookup_map_modify_ne p.stocks k k2 (fun v => v - q) h]

theorem getStock_addIncome (p : Player) (k : String) (a : Int) :
    getStock (p.addIncome a) k = getStock p k := rfl

theorem balance_addIncome (p : Player) (a : Int) :
    (p.addIncome a).balance = p.balance + a := rfl

theorem balance_sellStocks (p : Player) (k : String) (q : Int) :
    (p.sellStocks k q).balance = p.balance := rfl

theorem balance_addStocks (p : Player) (k : String) (q : Int) :
    (p.addStocks k q).balance = p.balance := rfl

theorem lookup_sellStocks_isSome (p : Player) (k k2 : String) (q : Int)
    (h : (p.stocks.lookup k2).isSome) :
    ((p.sellStocks k q).stocks.lookup k2).isSome := by
  by_cases hk : k2 = k
  · subst hk
    unfold Player.sellStocks
    rw [lookup_map_modify p.stocks k2 (fun v => v - q)]
    cases hx : p.stocks.lookup k2 with
    | none => rw [hx] at h; simp at h
    | some v => simp
  · unfold Player.sellStocks
    rw [lookup_map_modify_ne p.stocks k k2 (fun v => v - q) hk]
    exact h

theorem defaultCorp_inactive : defaultCorp.stats.isActive = false := rfl

theorem getCorp_isSome_of_active (corps : CorpMap) (name : String)
    (h : (getCorp corps name).stats.isActive = true) :
    (corps.lookup name).isSome := by
  unfold getCorp at h
  cases hx : corps.lookup name with
  | none => rw [hx] at h; exact absurd h (by decide)
  | some c => simp

/-! ## C4: buyStock -/

/-- C4: buyStock(p, C) succeeds if and only if C is active, C has at least
one remaining share and p can afford the current price; on success the
player is debited by exactly the price, gains one share of C and C loses
one remaining share; on failure the call returns failure and leaves the
player and the corporation unchanged. -/
theorem buyStock_spec (corps : CorpMap) (player : Player) (name : String)
    (hkey : (player.stocks.lookup name).isSome) :
    ((buyStock corps player name).1 = true ↔
      ((getCorp corps name).stats.isActive = true ∧
       1 ≤ (getCorp corps name).stats.stocks ∧
       (getCorp corps name).stats.price ≤ player.balance)) ∧
    ((buyStock corps player name).1 = true →
      ((buyStock corps player name).2.2.balance
         = player.balance - (getCorp corps name).stats.price ∧
       getStock (buyStock corps player name).2.2 name = getStock player name + 1 ∧
       (getCorp (buyStock corps player name).2.1 name).stocks
         = (getCorp corps name).stocks - 1)) ∧
    ((buyStock corps player name).1 = false →
      buyStock corps player name = (false, corps, player)) := by
  unfold buyStock
  by_cases hg : ¬ (getCorp corps name).stats.isActive
      ∨ (getCorp corps name).stats.stocks < 1
      ∨ player.balance < (getCorp corps name).stats.price
  · rw [if_pos hg]
    refine ⟨⟨fun h => absurd h Bool.false_ne_true, fun hc => ?_⟩, by simp, by simp⟩
    exfalso
    obtain ⟨h1, h2, h3⟩ := hc
    rcases hg with h | h | h
    · exact h (by simp [h1])
    · omega
    · omega
  · rw [if_neg hg]
    push_neg at hg
    obtain ⟨h1, h2, h3⟩ := hg
    have hactive : (getCorp corps name).stats.isActive = true := by
      simpa using h1
    have hcorp : (corps.lookup name).isSome :=
      getCorp_isSome_of_active corps name hactive
    refine ⟨by simp [hactive, h2, h3], ?_, by simp⟩
    intro _
    dsimp only
    refine ⟨rfl, ?_, ?_⟩
    · rw [getStock_addStocks (player.addExpense (getCorp corps name).stats.price) name 1 hkey]
      rfl
    · rw [getCorp_updateCorp _ _ _ hcorp]
      rfl

/-- C4 witness: a concrete affordable purchase succeeds with the stated
effects. -/
theorem buyStock_spec_witness :
    (buyStock corpsEx (mkPlayer "alice" 6000 0 0) "phoenix").1 = true ∧
    (buyStock corpsEx (mkPlayer "alice" 6000 0 0) "phoenix").2.2.balance = 5800 ∧
    getStock (buyStock corpsEx (mkPlayer "alice" 6000 0 0) "phoenix").2.2 "phoenix" = 1 := by
  have h := buyStock_spec corpsEx (mkPlayer "alice" 6000 0 0) "phoenix" (by decide)
  have hs : (buyStock corpsEx (mkPlayer "alice" 6000 0 0) "phoenix").1 = true :=
    h.1.mpr (by decide)
  have he := h.2.1 hs
  refine ⟨hs, ?_, ?_⟩
  · rw [he.1]; decide
  · rw [he.2.1]; decide

/-! ## C5: tradeStocks -/

/-- C5: tradeStocks(p, defunct, acquirer, n) succeeds exactly when n is at
most p's defunct holding and floor(n/2) is at most the acquirer's remaining
shares; on success the defunct holding falls by n, the acquirer holding
rises by exactly floor(n/2) (a trade of one share yields nothing and the
odd share is lost), the defunct regains n shares and the acquirer loses
floor(n/2); on failure nothing changes. -/
theorem tradeStocks_spec (corps : CorpMap) (player : Player)
    (dn an : String) (n : Int) (hne : dn ≠ an)
    (hdkey : (player.stocks.lookup dn).isSome)
    (hakey : (player.stocks.lookup an).isSome)
    (hdc : (corps.lookup dn).isSome)
    (hac : (corps.lookup an).isSome) :
    ((tradeStocks corps player dn an n).1 = true ↔
      (n ≤ getStock player dn ∧ Int.fdiv n 2 ≤ (getCorp corps an).stocks)) ∧
    ((tradeStocks corps player dn an n).1 = true →
      (getStock (tradeStocks corps player dn an n).2.2 dn = getStock player dn - n ∧
       getStock (tradeStocks corps player dn an n).2.2 an
         = getStock player an + Int.fdiv n 2 ∧
       (getCorp (tradeStocks corps player dn an n).2.1 dn).stocks
         = (getCorp corps dn).stocks + n ∧
       (getCorp (tradeStocks corps player dn an n).2.1 an).stocks
         = (getCorp corps an).stocks - Int.fdiv n 2)) ∧
    ((tradeStocks corps player dn an n).1 = false →
      tradeStocks corps player dn an n = (false, corps, player)) := by
  unfold tradeStocks
  by_cases hg : getStock player dn < n ∨ (getCorp corps an).stocks < Int.fdiv n 2
  · rw [if_pos hg]
    refine ⟨⟨fun h => absurd h Bool.false_ne_true, fun hc => ?_⟩, by simp, by simp⟩
    exfalso
    obtain ⟨h1, h2⟩ := hc
    rcases hg with h | h <;> omega
  · rw [if_neg hg]
    push_neg at hg
    refine ⟨by simp [hg.1, hg.2], ?_, by simp⟩
    intro _
    have hne2 : an ≠ dn := fun e => hne e.symm
    dsimp only
    refine ⟨?_, ?_, ?_, ?_⟩
    · rw [getStock_addStocks_ne _ _ _ _ hne]
      rw [getStock_sellStocks _ _ _ hdkey]
    · rw [getStock_addStocks (player.sellStocks dn n) an (Int.fdiv n 2)
        (lookup_sellStocks_isSome player dn an n hakey)]
      rw [getStock_sellStocks_ne _ _ _ _ hne2]
    · rw [getCorp_updateCorp_ne _ _ _ _ hne]
      rw [getCorp_updateCorp _ _ _ hdc]
      rfl
    · have hac1 : ((updateCorp corps dn
          ((getCorp corps dn).incrementStocks n)).lookup an).isSome := by
        unfold updateCorp
        rw [lookup_map_modify_ne corps dn an
          (fun _ => (getCorp corps dn).incrementStocks n) hne2]
        exact hac
      rw [getCorp_updateCorp _ _ _ hac1]
      rw [getCorp_updateCorp_ne _ _ _ _ hne2]
      rfl

/-- C5 witness: trading a single quantum share for phoenix succeeds, yields
zero phoenix shares and the odd share is lost. -/
theorem tradeStocks_spec_witness :
    (tradeStocks corpsEx (mkPlayer "alice" 0 0 1) "quantum" "phoenix" 1).1 = true ∧
    getStock (tradeStocks corpsEx (mkPlayer "alice" 0 0 1) "quantum" "phoenix" 1).2.2 "quantum" = 0 ∧
    getStock (tradeStocks corpsEx (mkPlayer "alice" 0 0 1) "quantum" "phoenix" 1).2.2 "phoenix" = 0 := by
  have h := tradeStocks_spec corpsEx (mkPlayer "alice" 0 0 1) "quantum" "phoenix" 1
    (by decide) (by decide) (by decide) (by decide) (by decide)
  have hs : (tradeStocks corpsEx (mkPlayer "alice" 0 0 1) "quantum" "phoenix" 1).1 = true :=
    h.1.mpr (by decide)
  have he := h.2.1 hs
  refine ⟨hs, ?_, ?_⟩
  · rw [he.1]; decide
  · rw [he.2.1]; decide

/-! ## C10: sellStock with a negative quantity -/

/-- C10: sellStock guards only the upper bound, so any negative quantity is
accepted: the call reports success, the holding grows by the magnitude of
n, the balance falls by that magnitude times the price and the
corporation's remaining shares fall by it as well — an unguarded purchase
path through the sell operation. -/
theorem sellStock_negative_unguarded (corps : CorpMap) (player : Player)
    (name : String) (n : Int) (hn : n < 0)
    (howned : 0 ≤ getStock player name)
    (hkey : (player.stocks.lookup name).isSome)
    (hcorp : (corps.lookup name).isSome) :
    (sellStock corps player name n).1 = true ∧
    getStock (sellStock corps player name n).2.2 name
      = getStock player name + (-n) ∧
    (sellStock corps player name n).2.2.balance
      = player.balance - (-n) * (getCorp corps name).stats.price ∧
    (getCorp (sellStock corps player name n).2.1 name).stocks
      = (getCorp corps name).stocks - (-n) := by
  have hguard : ¬ getStock player name < n := by omega
  unfold sellStock
  rw [if_neg hguard]
  refine ⟨rfl, ?_, ?_, ?_⟩
  · rw [getStock_addIncome, getStock_sellStocks _ _ _ hkey]
    ring
  · rw [balance_addIncome, balance_sellStocks]
    ring
  · rw [getCorp_updateCorp _ _ _ hcorp]
    show (getCorp corps name).stocks + n = _
    ring

/-! ## C2: voice relay and room membership -/

theorem filter_sid_eq (sockets : List VSocket) (t : VSocket)
    (hmem : t ∈ sockets) (hnodup : (sockets.map (·.sid)).Nodup) :
    sockets.filter (fun s => s.sid = t.sid) = [t] := by
  induction sockets with
  | nil => simp at hmem
  | cons s rest ih =>
    simp only [List.map_cons, List.nodup_cons] at hnodup
    rcases List.mem_cons.mp hmem with he | hmem2
    · subst he
      rw [List.filter_cons_of_pos (by simp)]
      have hrest : rest.filter (fun s2 => s2.sid = t.sid) = [] := by
        rw [List.filter_eq_nil_iff]
        intro x hx
        simp only [decide_eq_true_eq]
        intro hsid
        exact hnodup.1 (hsid ▸ List.mem_map_of_mem (·.sid) hx)
      rw [hrest]
    · have hne : ¬ s.sid = t.sid := by
        intro hsid
        exact hnodup.1 (hsid ▸ List.mem_map_of_mem (·.sid) hmem2)
      rw [List.filter_cons_of_neg (by simpa using hne)]
      exact ih hmem2 hnodup.2

/-- C2 amended: a relay event (offer, answer or iceCandidate) with a present
targetId and payload is delivered to the socket whose id is targetId and to
no one else, with no condition on voice-room membership: the handlers never
compare the rooms of sender and target. -/
theorem relay_delivers_regardless_of_rooms (sockets : List VSocket)
    (senderId : String) (t : VSocket) (payload : String)
    (hmem : t ∈ sockets) (hnodup : (sockets.map (·.sid)).Nodup) :
    relayOffer sockets senderId (some t.sid) (some payload)
      = [{ recipient := t.sid, sender := senderId, payload := payload }] ∧
    relayAnswer sockets senderId (some t.sid) (some payload)
      = [{ recipient := t.sid, sender := senderId, payload := payload }] ∧
    relayIceCandidate sockets senderId (some t.sid) (some payload)
      = [{ recipient := t.sid, sender := senderId, payload := payload }] := by
  have hf := filter_sid_eq sockets t hmem hnodup
  unfold relayOffer relayAnswer relayIceCandidate
  refine ⟨?_, ?_, ?_⟩ <;> simp [hf]

/-- C2 amended witness: concrete delivery between sockets sitting in two
different voice rooms. -/
theorem relay_delivers_regardless_of_rooms_witness :
    sock1.room ≠ sock2.room ∧
    relayOffer [sock1, sock2] "s1" (some sock2.sid) (some "sdp")
      = [{ recipient := sock2.sid, sender := "s1", payload := "sdp" }] := by
  have h := relay_delivers_regardless_of_rooms [sock1, sock2] "s1" sock2 "sdp"
    (by decide) (by decide)
  exact ⟨by decide, h.1⟩

/-- C2 counterexample: the claim says a target in a different voice room
never receives the relayed payload; here the sender sits in room r1, the
target in room r2, and the offer is delivered to the target anyway. -/
theorem relay_cross_room_counterexample :
    sock1.room = some "r1" ∧ sock2.room = some "r2" ∧
    sock1.room ≠ sock2.room ∧
    relayOffer [sock1, sock2] sock1.sid (some sock2.sid) (some "sdp")
      = [{ recipient := sock2.sid, sender := sock1.sid, payload := "sdp" }] := by
  decide

/-! ## C6: liquidateCorporation -/

theorem liquidateStep_pair (name : String) (price : Int) (c : Corporation)
    (accL : List Player) (p : Player) :
    liquidateStep name price (c, accL) p
      = (if 0 < getStock p name then c.incrementStocks (getStock p name) else c,
         accL ++ [liquidatePlayer name price p]) := by
  by_cases hq : 0 < getStock p name
  · simp [liquidateStep, liquidatePlayer, hq]
  · simp [liquidateStep, liquidatePlayer, hq]

theorem incrementStocks_add (c : Corporation) (a b : Int) :
    (c.incrementStocks a).incrementStocks b = c.incrementStocks (a + b) := by
  unfold Corporation.incrementStocks
  simp [add_assoc]

theorem liquidateFold_snd (name : String) (price : Int) :
    ∀ (ps : List Player) (c : Corporation) (acc : List Player),
    (ps.foldl (liquidateStep name price) (c, acc)).2
      = acc ++ ps.map (liquidatePlayer name price) := by
  intro ps
  induction ps with
  | nil => intro c acc; simp
  | cons p rest ih =>
    intro c acc
    rw [List.foldl_cons, liquidateStep_pair, ih]
    simp

theorem liquidateFold_fst (name : String) (price : Int) :
    ∀ (ps : List Player) (c : Corporation) (acc : List Player),
    (∀ p ∈ ps, 0 ≤ getStock p name) →
    (ps.foldl (liquidateStep name price) (c, acc)).1
      = c.incrementStocks ((ps.map (fun p => getStock p name)).sum) := by
  intro ps
  induction ps with
  | nil =>
    intro c acc _
    simp [Corporation.incrementStocks]
  | cons p rest ih =>
    intro c acc hpos
    rw [List.foldl_cons, liquidateStep_pair]
    by_cases hq : 0 < getStock p name
    · rw [if_pos hq]
      rw [ih _ _ (fun q hm => hpos q (List.mem_cons_of_mem p hm))]
      rw [incrementStocks_add]
      simp
    · rw [if_neg hq]
      have hz : getStock p name = 0 :=
        le_antisymm (by omega) (hpos p (List.mem_cons_self p rest))
      rw [ih _ _ (fun q hm => hpos q (List.mem_cons_of_mem p hm))]
      simp [hz]

theorem lookup_isSome_of_getStock_pos (p : Player) (k : String)
    (h : 0 < getStock p k) : ((p.stocks.lookup k)).isSome := by
  unfold getStock at h
  cases hx : p.stocks.lookup k with
  | none => rw [hx] at h; simp at h
  | some v => simp

theorem getStock_liquidatePlayer (name : String) (price : Int) (p : Player)
    (hpos : 0 ≤ getStock p name) :
    getStock (liquidatePlayer name price p) name = 0 := by
  unfold liquidatePlayer
  by_cases hq : 0 < getStock p name
  · rw [if_pos hq]
    rw [getStock_addIncome,
      getStock_sellStocks _ _ _ (lookup_isSome_of_getStock_pos p name hq)]
    ring
  · rw [if_neg hq]
    omega

theorem balance_liquidatePlayer (name : String) (price : Int) (p : Player)
    (hpos : 0 ≤ getStock p name) :
    (liquidatePlayer name price p).balance
      = p.balance + getStock p name * price := by
  unfold liquidatePlayer
  by_cases hq : 0 < getStock p name
  · rw [if_pos hq, balance_addIncome, balance_sellStocks]
  · rw [if_neg hq]
    have hz : getStock p name = 0 := by omega
    simp [hz]

/-- C6 amended: after liquidateCorporation(C) every player's holding of C
is 0, every player that held k shares has been credited exactly k times
the current price, all the shares have been returned to C, and C's active
flag is unchanged (the source never deactivates the corporation). -/
theorem liquidateCorporation_spec (corps : CorpMap) (players : List Player)
    (name : String)
    (hpos : ∀ p ∈ players, 0 ≤ getStock p name)
    (hc : ((corps.lookup name)).isSome) :
    (liquidateCorporation corps players name).2.length = players.length ∧
    (∀ i : Nat,
      getStock ((liquidateCorporation corps players name).2.getD i dummyPlayer) name = 0 ∧
      ((liquidateCorporation corps players name).2.getD i dummyPlayer).balance
        = (players.getD i dummyPlayer).balance
          + getStock (players.getD i dummyPlayer) name
            * (getCorp corps name).stats.price) ∧
    (getCorp (liquidateCorporation corps players name).1 name).stocks
      = (getCorp corps name).stocks + (players.map (fun p => getStock p name)).sum ∧
    (getCorp (liquidateCorporation corps players name).1 name).isActive
      = (getCorp corps name).isActive := by
  have hsnd : (liquidateCorporation corps players name).2
      = players.map (liquidatePlayer name (getCorp corps name).stats.price) := by
    unfold liquidateCorporation
    dsimp only
    rw [liquidateFold_snd]
    simp
  have hfst : (liquidateCorporation corps players name).1
      = updateCorp corps name
          ((getCorp corps name).incrementStocks
            ((players.map (fun p => getStock p name)).sum)) := by
    unfold liquidateCorporation
    dsimp only
    rw [liquidateFold_fst name ((getCorp corps name).stats.price) players
      (getCorp corps name) [] hpos]
  refine ⟨by rw [hsnd]; simp, ?_, ?_, ?_⟩
  · intro i
    rw [hsnd]
    by_cases hi : i < players.length
    · have hgd : ∀ (l : List Player) (f : Player → Player) (j : Nat), j < l.length →
          (l.map f).getD j dummyPlayer = f (l.getD j dummyPlayer) := by
        intro l f j hj
        rw [List.getD_eq_getElem?_getD, List.getD_eq_getElem?_getD,
          List.getElem?_map]
        rw [List.getElem?_eq_getElem hj]
        simp
      rw [hgd players _ i hi]
      have hmem : players.getD i dummyPlayer ∈ players := by
        rw [List.getD_eq_getElem?_getD, List.getElem?_eq_getElem hi]
        exact List.getElem_mem hi
      exact ⟨getStock_liquidatePlayer _ _ _ (hpos _ hmem),
        balance_liquidatePlayer _ _ _ (hpos _ hmem)⟩
    · have hout1 : (players.map (liquidatePlayer name (getCorp corps name).stats.price)).getD i dummyPlayer
          = dummyPlayer := by
        rw [List.getD_eq_getElem?_getD, List.getElem?_eq_none (by simpa using hi)]
        rfl
      have hout2 : players.getD i dummyPlayer = dummyPlayer := by
        rw [List.getD_eq_getElem?_getD, List.getElem?_eq_none (by omega)]
        rfl
      rw [hout1, hout2]
      exact ⟨rfl, by simp [dummyPlayer, getStock]⟩
  · rw [hfst, getCorp_updateCorp _ _ _ hc]
    rfl
  · rw [hfst, getCorp_updateCorp _ _ _ hc]
    rfl

/-- C6 amended witness: a concrete liquidation of two shares at price 200
credits 400, zeroes the holding and returns the shares. -/
theorem liquidateCorporation_spec_witness :
    getStock ((liquidateCorporation corpsEx [mkPlayer "p1" 0 2 0] "phoenix").2.getD 0 dummyPlayer) "phoenix" = 0 ∧
    ((liquidateCorporation corpsEx [mkPlayer "p1" 0 2 0] "phoenix").2.getD 0 dummyPlayer).balance = 400 ∧
    (getCorp (liquidateCorporation corpsEx [mkPlayer "p1" 0 2 0] "phoenix").1 "phoenix").stocks = 27 := by
  have h := liquidateCorporation_spec corpsEx [mkPlayer "p1" 0 2 0] "phoenix"
    (by decide) (by decide)
  refine ⟨(h.2.1 0).1, ?_, ?_⟩
  · rw [(h.2.1 0).2]; decide
  · rw [h.2.2.1]; decide

/-- C6 counterexample: the claim requires the active flag to be false after
liquidation; on this concrete input the corporation stays active. -/
theorem liquidateCorporation_active_flag_counterexample :
    (getCorp (liquidateCorporation corpsEx [mkPlayer "p1" 0 2 0] "phoenix").1 "phoenix").isActive = true ∧
    ¬ (getCorp (liquidateCorporation corpsEx [mkPlayer "p1" 0 2 0] "phoenix").1 "phoenix").isActive = false := by
  decide

/-! ## C7: buy-stocks batching -/

theorem buyStocksStep_pair (acc : List String) (corps : CorpMap)
    (player : Player) (nm : String) :
    buyStocksStep (acc, corps, player) nm
      = (if (buyStock corps player nm).1 then acc ++ [nm] else acc,
         (buyStock corps player nm).2.1, (buyStock corps player nm).2.2) := rfl

theorem buyBatch_count (name : String) :
    ∀ (purchases : List String) (corps : CorpMap) (player : Player)
      (acc : List String),
    0 ≤ (getCorp corps name).stocks →
    0 ≤ (getCorp (purchases.foldl buyStocksStep (acc, corps, player)).2.1 name).stocks ∧
    (((purchases.foldl buyStocksStep (acc, corps, player)).1.filter
        (fun s => s = name)).length : Int)
      = ((acc.filter (fun s => s = name)).length : Int)
        + (getCorp corps name).stocks
        - (getCorp (purchases.foldl buyStocksStep (acc, corps, player)).2.1 name).stocks := by
  intro purchases
  induction purchases with
  | nil =>
    intro corps player acc h
    refine ⟨h, by simp⟩
  | cons nm rest ih =>
    intro corps player acc h
    rw [List.foldl_cons, buyStocksStep_pair]
    by_cases hg : ¬ (getCorp corps nm).stats.isActive
        ∨ (getCorp corps nm).stats.stocks < 1
        ∨ player.balance < (getCorp corps nm).stats.price
    · have hb : buyStock corps player nm = (false, corps, player) := by
        unfold buyStock
        rw [if_pos hg]
      rw [hb]
      simpa using ih corps player acc h
    · have hb : buyStock corps player nm
          = (true, updateCorp corps nm ((getCorp corps nm).decrementStocks 1),
             (player.addExpense (getCorp corps nm).stats.price).addStocks nm 1) := by
        unfold buyStock
        rw [if_neg hg]
      rw [hb]
      dsimp only
      rw [if_pos rfl]
      push_neg at hg
      have hactive : (getCorp corps nm).stats.isActive = true := by
        simpa using hg.1
      have hcorp : ((corps.lookup nm)).isSome :=
        getCorp_isSome_of_active corps nm hactive
      by_cases hnm : nm = name
      · subst hnm
        have hstocks : (getCorp (updateCorp corps nm
            ((getCorp corps nm).decrementStocks 1)) nm).stocks
            = (getCorp corps nm).stocks - 1 := by
          rw [getCorp_updateCorp _ _ _ hcorp]
          rfl
        have h1le : 1 ≤ (getCorp corps nm).stats.stocks := hg.2.1
        have hstats : (getCorp corps nm).stats.stocks = (getCorp corps nm).stocks := rfl
        have hrec := ih (updateCorp corps nm ((getCorp corps nm).decrementStocks 1))
          ((player.addExpense (getCorp corps nm).stats.price).addStocks nm 1)
          (acc ++ [nm]) (by rw [hstocks]; omega)
        refine ⟨by simpa using hrec.1, ?_⟩
        have hcount : ((acc ++ [nm]).filter (fun s => s = nm)).length
            = (acc.filter (fun s => s = nm)).length + 1 := by
          rw [List.filter_append]
          simp
        have h2 := hrec.2
        rw [hcount, hstocks] at h2
        push_cast at h2 ⊢
        omega
      · have hne : name ≠ nm := fun e => hnm e.symm
        have hstocks : getCorp (updateCorp corps nm
            ((getCorp corps nm).decrementStocks 1)) name = getCorp corps name :=
          getCorp_updateCorp_ne _ _ _ _ hne
        have hrec := ih (updateCorp corps nm ((getCorp corps nm).decrementStocks 1))
          ((player.addExpense (getCorp corps nm).stats.price).addStocks nm 1)
          (acc ++ [nm]) (by rw [hstocks]; exact h)
        have hcount : ((acc ++ [nm]).filter (fun s => s = name)).length
            = (acc.filter (fun s => s = name)).length := by
          rw [List.filter_append]
          simp [hnm]
        refine ⟨by simpa using hrec.1, ?_⟩
        have h2 := hrec.2
        rw [hcount, hstocks] at h2
        simpa using h2

theorem corporations_setCurrentPlayer (g : Game) (p : Player) :
    (setCurrentPlayer g p).corporations = g.corporations := rfl

theorem corporations_force (g : Game) (s : GameState) (info : StateInfo) :
    (force g s info).corporations = g.corporations := rfl

theorem corporations_consolidateActivity (g : Game) (e : TurnEvent) :
    (consolidateActivity g e).corporations = g.corporations := rfl

/-- C7 amended: the router hands the request body to the engine unchanged
(no truncation to three entries happens at the router boundary, so four or
more purchases can be applied in one request); within the batch, shares
bought by earlier entries count against availability for later entries, so
the number of successful purchases of any corporation never exceeds its
initial remaining shares and the remaining shares never drop below zero. -/
theorem buyStocks_batch_availability (g : Game) (purchases : List String)
    (name : String) (h : 0 ≤ (getCorp g.corporations name).stocks) :
    (∀ player : Player,
      0 ≤ (getCorp (buyStocksBatch g.corporations player purchases).2.1 name).stocks ∧
      (((buyStocksBatch g.corporations player purchases).1.filter
          (fun s => s = name)).length : Int)
        ≤ (getCorp g.corporations name).stocks) ∧
    0 ≤ (getCorp (routerBuyStocks g purchases).corporations name).stocks := by
  have hbatch : ∀ player : Player,
      0 ≤ (getCorp (buyStocksBatch g.corporations player purchases).2.1 name).stocks ∧
      (((buyStocksBatch g.corporations player purchases).1.filter
          (fun s => s = name)).length : Int)
        ≤ (getCorp g.corporations name).stocks := by
    intro player
    have hk := buyBatch_count name purchases g.corporations player [] h
    unfold buyStocksBatch
    refine ⟨hk.1, ?_⟩
    have h2 := hk.2
    simp only [List.filter_nil, List.length_nil] at h2
    omega
  refine ⟨hbatch, ?_⟩
  unfold routerBuyStocks Game.buyStocks
  cases hcp : currentPlayer g with
  | none => exact h
  | some player =>
    rw [corporations_consolidateActivity, corporations_force,
      corporations_setCurrentPlayer]
    exact (hbatch player).1

/-- C7 amended witness: a concrete four-entry batch stays within the 25
available shares and leaves a non-negative share count. -/
theorem buyStocks_batch_availability_witness :
    0 ≤ (getCorp (buyStocksBatch gameBuy.corporations (mkPlayer "alice" 6000 0 0)
        ["phoenix", "phoenix", "phoenix", "phoenix"]).2.1 "phoenix").stocks ∧
    (((buyStocksBatch gameBuy.corporations (mkPlayer "alice" 6000 0 0)
        ["phoenix", "phoenix", "phoenix", "phoenix"]).1.filter
        (fun s => s = "phoenix")).length : Int)
      ≤ (getCorp gameBuy.corporations "phoenix").stocks := by
  exact (buyStocks_batch_availability gameBuy
    ["phoenix", "phoenix", "phoenix", "phoenix"] "phoenix" (by decide)).1
    (mkPlayer "alice" 6000 0 0)

/-- C7 counterexample: a four-entry buy-stocks request reaches the engine
untruncated and all four purchases are applied in one turn, against the
claim that at most three are. -/
theorem buyStocks_four_entries_applied_counterexample :
    ((routerBuyStocks gameBuy ["phoenix", "phoenix", "phoenix", "phoenix"]).players.head?).map
      (fun p => getStock p "phoenix") = some 4 ∧
    ((routerBuyStocks gameBuy ["phoenix", "phoenix", "phoenix", "phoenix"]).players.head?).map
      (·.balance) = some 5200 := by
  decide

/-- C10 witness: selling -3 phoenix shares from an empty holding succeeds,
grants 3 shares, drives the balance to -600 and drains the corporation. -/
theorem sellStock_negative_unguarded_witness :
    (sellStock corpsEx (mkPlayer "alice" 0 0 0) "phoenix" (-3)).1 = true ∧
    getStock (sellStock corpsEx (mkPlayer "alice" 0 0 0) "phoenix" (-3)).2.2 "phoenix" = 3 ∧
    (sellStock corpsEx (mkPlayer "alice" 0 0 0) "phoenix" (-3)).2.2.balance = -600 ∧
    (getCorp (sellStock corpsEx (mkPlayer "alice" 0 0 0) "phoenix" (-3)).2.1 "phoenix").stocks = 22 := by
  have h := sellStock_negative_unguarded corpsEx (mkPlayer "alice" 0 0 0) "phoenix" (-3)
    (by decide) (by decide) (by decide) (by decide)
  refine ⟨h.1, ?_, ?_, ?_⟩
  · rw [h.2.1]; decide
  · rw [h.2.2.1]; decide
  · rw [h.2.2.2]; decide

/-! ## C3: distributeBonuses -/

theorem foldl_max_init_le (l : List Int) : ∀ a : Int, a ≤ l.foldl max a := by
  induction l with
  | nil => intro a; simp
  | cons b rest ih =>
    intro a
    exact le_trans (le_max_left a b) (ih (max a b))

theorem foldl_max_le_of_mem (l : List Int) :
    ∀ (a x : Int), x ∈ l → x ≤ l.foldl max a := by
  induction l with
  | nil => intro a x hx; simp at hx
  | cons b rest ih =>
    intro a x hx
    rcases List.mem_cons.mp hx with he | hm
    · subst he
      exact le_trans (le_max_right a x) (foldl_max_init_le rest (max a x))
    · exact ih (max a b) x hm

theorem foldl_max_mem_or (l : List Int) :
    ∀ a : Int, l.foldl max a = a ∨ l.foldl max a ∈ l := by
  induction l with
  | nil => intro a; exact Or.inl rfl
  | cons b rest ih =>
    intro a
    rcases ih (max a b) with he | hm
    · rw [List.foldl_cons, he]
      rcases max_choice a b with h | h
      · exact Or.inl h
      · right
        rw [h]
        exact List.mem_cons_self b rest
    · exact Or.inr (List.mem_cons_of_mem b hm)

theorem sortIntDesc_perm (l : List Int) : List.Perm (sortIntDesc l) l := by
  unfold sortIntDesc
  exact (List.reverse_perm _).trans (List.perm_insertionSort _ l)

theorem sortIntDesc_sorted (l : List Int) :
    (sortIntDesc l).Sorted (fun a b => b ≤ a) := by
  unfold sortIntDesc
  have h := List.sorted_insertionSort (· ≤ ·) l
  exact List.pairwise_reverse.mpr h

theorem mem_shareholders_pos (players : List Player) (name : String)
    (p : Player) (h : p ∈ shareholders players name) : 0 < getStock p name := by
  unfold shareholders at h
  have := List.mem_filter.mp h
  simpa using this.2

theorem dummyPlayer_getStock (name : String) : getStock dummyPlayer name = 0 := rfl

theorem mem_topGroup_iff (players : List Player) (name : String) (p : Player) :
    p ∈ topGroup players name ↔
      p ∈ shareholders players name ∧ getStock p name = topCount players name := by
  unfold topGroup
  rw [List.mem_filter]
  simp

theorem mem_secondGroup (players : List Player) (name : String) (p : Player)
    (h : p ∈ secondGroup players name) :
    p ∈ shareholders players name ∧ getStock p name = secondCount players name
      ∧ hasSecondGroup players name = true := by
  unfold secondGroup at h
  by_cases hs : hasSecondGroup players name = true
  · rw [if_pos hs] at h
    have := List.mem_filter.mp h
    exact ⟨this.1, by simpa using this.2, hs⟩
  · rw [if_neg hs] at h
    simp at h

theorem dummyPlayer_not_mem_topGroup (players : List Player) (name : String) :
    dummyPlayer ∉ topGroup players name := by
  intro h
  have := mem_shareholders_pos players name _ ((mem_topGroup_iff _ _ _).mp h).1
  rw [dummyPlayer_getStock] at this
  omega

theorem dummyPlayer_not_mem_secondGroup (players : List Player) (name : String) :
    dummyPlayer ∉ secondGroup players name := by
  intro h
  have := mem_shareholders_pos players name _ (mem_secondGroup _ _ _ h).1
  rw [dummyPlayer_getStock] at this
  omega

theorem secondCount_lt_topCount (players : List Player) (name : String)
    (h : hasSecondGroup players name = true) :
    secondCount players name < topCount players name ∧
    0 < secondCount players name := by
  unfold hasSecondGroup at h
  rw [List.any_eq_true] at h
  obtain ⟨p, hp, hlt⟩ := h
  rw [decide_eq_true_eq] at hlt
  have hpos : 0 < getStock p name := mem_shareholders_pos players name p hp
  have hmemF : getStock p name ∈
      ((shareholders players name).map (fun p => getStock p name)).filter
        (fun c => c < topCount players name) := by
    rw [List.mem_filter]
    exact ⟨List.mem_map_of_mem _ hp, by simpa using hlt⟩
  have hle : getStock p name ≤ secondCount players name :=
    foldl_max_le_of_mem _ 0 _ hmemF
  have hposS : 0 < secondCount players name := by omega
  rcases foldl_max_mem_or (((shareholders players name).map
      (fun p => getStock p name)).filter (fun c => c < topCount players name)) 0 with
    hz | hmem
  · unfold secondCount at hposS ⊢
    omega
  · have := List.mem_filter.mp hmem
    exact ⟨by simpa using this.2, hposS⟩

/-- The bridge between StockMarket.findShareholderGroups (groupBy share
count, sort the counts descending, take the first two groups) and the
specification's top and second share-count groups. -/
theorem findShareholderGroups_bridge (players : List Player) (name : String)
    (h : shareholders players name ≠ []) :
    (findShareholderGroups players name).majority.players = topGroup players name ∧
    (findShareholderGroups players name).minority.players = secondGroup players name := by
  have hSH : shareholders players name
      = players.filter (fun p => 0 < getStock p name) := rfl
  have hposS : ∀ x ∈ (shareholders players name).map (fun p => getStock p name),
      0 < x := by
    intro x hx
    obtain ⟨p, hp, he⟩ := List.mem_map.mp hx
    exact he ▸ mem_shareholders_pos players name p hp
  have hne : (players.filter (fun p => 0 < getStock p name)).isEmpty = false := by
    rw [← hSH]
    cases hc : shareholders players name with
    | nil => exact absurd hc h
    | cons a l => rfl
  unfold findShareholderGroups
  rw [if_neg (by simp [hne])]
  rw [← hSH]
  cases hL : sortIntDesc ((shareholders players name).map
      (fun p => getStock p name)).dedup with
  | nil =>
    exfalso
    have hperm := sortIntDesc_perm ((shareholders players name).map
      (fun p => getStock p name)).dedup
    rw [hL] at hperm
    have hdn : ((shareholders players name).map
        (fun p => getStock p name)).dedup = [] := hperm.symm.eq_nil
    cases hc : shareholders players name with
    | nil => exact absurd hc h
    | cons a l =>
      have : getStock a name ∈ ((shareholders players name).map
          (fun p => getStock p name)).dedup := by
        rw [List.mem_dedup, hc]
        exact List.mem_map_of_mem _ (List.mem_cons_self a l)
      rw [hdn] at this
      simp at this
  | cons c1 rest =>
    have hperm := sortIntDesc_perm ((shareholders players name).map
      (fun p => getStock p name)).dedup
    rw [hL] at hperm
    have hsorted := sortIntDesc_sorted ((shareholders players name).map
      (fun p => getStock p name)).dedup
    rw [hL] at hsorted
    have hnodup : (c1 :: rest).Nodup :=
      hperm.nodup_iff.mpr (List.nodup_dedup _)
    have hmemS : ∀ x, x ∈ c1 :: rest ↔
        x ∈ (shareholders players name).map (fun p => getStock p name) := by
      intro x
      rw [hperm.mem_iff, List.mem_dedup]
    have hc1S : c1 ∈ (shareholders players name).map (fun p => getStock p name) :=
      (hmemS c1).mp (List.mem_cons_self c1 rest)
    have hleS : ∀ x ∈ (shareholders players name).map (fun p => getStock p name),
        x ≤ c1 := by
      intro x hx
      rcases List.mem_cons.mp ((hmemS x).mpr hx) with he | hm
      · exact he.le
      · exact List.rel_of_sorted_cons hsorted x hm
    have htop : topCount players name = c1 := by
      unfold topCount
      have h1 : c1 ≤ ((shareholders players name).map
          (fun p => getStock p name)).foldl max 0 :=
        foldl_max_le_of_mem _ 0 c1 hc1S
      rcases foldl_max_mem_or ((shareholders players name).map
          (fun p => getStock p name)) 0 with hz | hm
      · have := hposS c1 hc1S
        omega
      · exact le_antisymm (hleS _ hm) h1
    have hmaj : (shareholders players name).filter
        (fun p => getStock p name = c1) = topGroup players name := by
      unfold topGroup
      rw [htop]
    cases hrest : rest with
    | nil =>
      have hsingle : ∀ x ∈ (shareholders players name).map
          (fun p => getStock p name), x = c1 := by
        intro x hx
        have := (hmemS x).mpr hx
        rw [hrest] at this
        simpa using this
      have hnosecond : hasSecondGroup players name = false := by
        unfold hasSecondGroup
        rw [List.any_eq_false]
        intro p hp
        rw [decide_eq_true_eq]
        have := hsingle (getStock p name) (List.mem_map_of_mem _ hp)
        rw [htop, this]
        omega
      have hsec : secondGroup players name = [] := by
        unfold secondGroup
        rw [hnosecond]
        simp
      subst hrest
      exact ⟨by dsimp only; rw [hmaj], by dsimp only; rw [hsec]⟩
    | cons c2 rest2 =>
      subst hrest
      have hc2S : c2 ∈ (shareholders players name).map (fun p => getStock p name) :=
        (hmemS c2).mp (List.mem_cons_of_mem c1 (List.mem_cons_self c2 rest2))
      have hc2ne : c2 ≠ c1 := by
        intro he
        rw [List.nodup_cons] at hnodup
        exact hnodup.1 (he ▸ List.mem_cons_self c2 rest2)
      have hc2lt : c2 < c1 :=
        lt_of_le_of_ne (List.rel_of_sorted_cons hsorted c2
          (List.mem_cons_self c2 rest2)) hc2ne
      have hbelow : ∀ x ∈ (shareholders players name).map
          (fun p => getStock p name), x ≠ c1 → x ≤ c2 := by
        intro x hx hxne
        rcases List.mem_cons.mp ((hmemS x).mpr hx) with he | hm
        · exact absurd he hxne
        · rcases List.mem_cons.mp hm with he2 | hm2
          · exact he2.le
          · have htail : (c2 :: rest2).Sorted (fun a b => b ≤ a) :=
              (List.sorted_cons.mp hsorted).2
            exact List.rel_of_sorted_cons htail x hm2
      have hsecondTrue : hasSecondGroup players name = true := by
        unfold hasSecondGroup
        rw [List.any_eq_true]
        obtain ⟨p, hp, he⟩ := List.mem_map.mp hc2S
        refine ⟨p, hp, ?_⟩
        rw [decide_eq_true_eq, he, htop]
        exact hc2lt
      have hsc : secondCount players name = c2 := by
        unfold secondCount
        have hc2F : c2 ∈ ((shareholders players name).map
            (fun p => getStock p name)).filter
              (fun c => c < topCount players name) := by
          rw [List.mem_filter]
          exact ⟨hc2S, by rw [htop]; simpa using hc2lt⟩
        have h1 : c2 ≤ (((shareholders players name).map
            (fun p => getStock p name)).filter
              (fun c => c < topCount players name)).foldl max 0 :=
          foldl_max_le_of_mem _ 0 c2 hc2F
        rcases foldl_max_mem_or (((shareholders players name).map
            (fun p => getStock p name)).filter
              (fun c => c < topCount players name)) 0 with hz | hm
        · have := hposS c2 hc2S
          omega
        · have hmf := List.mem_filter.mp hm
          have hlt : (((shareholders players name).map
              (fun p => getStock p name)).filter
                (fun c => c < topCount players name)).foldl max 0
              < topCount players name := by
            simpa using hmf.2
          refine le_antisymm (hbelow _ hmf.1 ?_) h1
          intro he
          rw [he, htop] at hlt
          exact lt_irrefl _ hlt
      have hsec : (shareholders players name).filter
          (fun p => getStock p name = c2) = secondGroup players name := by
        unfold secondGroup
        rw [if_pos hsecondTrue, hsc]
      exact ⟨by dsimp only; rw [hmaj], by dsimp only; rw [hsec]⟩

theorem getD_map_player (l : List Player) (f : Player → Player) (i : Nat)
    (hfix : f dummyPlayer = dummyPlayer) :
    (l.map f).getD i dummyPlayer = f (l.getD i dummyPlayer) := by
  by_cases hi : i < l.length
  · rw [List.getD_eq_getElem?_getD, List.getD_eq_getElem?_getD,
      List.getElem?_map, List.getElem?_eq_getElem hi]
    simp
  · rw [List.getD_eq_getElem?_getD, List.getD_eq_getElem?_getD,
      List.getElem?_eq_none (by simpa using hi),
      List.getElem?_eq_none (by omega)]
    simp [hfix]

theorem payAll_getD (amount : Int) (group : List Player) (players : List Player)
    (i : Nat) (hdummy : dummyPlayer ∉ group) :
    (payAll amount group players).getD i dummyPlayer
      = (if players.getD i dummyPlayer ∈ group
         then (players.getD i dummyPlayer).addIncome amount
         else players.getD i dummyPlayer) := by
  unfold payAll
  rw [getD_map_player _ _ _ (by rw [if_neg hdummy])]

theorem payAll_length (amount : Int) (group : List Player) (players : List Player) :
    (payAll amount group players).length = players.length := by
  unfold payAll
  simp

/-- C3: with at least one shareholder, distributeBonuses(C) pays
floor((majorityBonus + minorityBonus) / |top group|) to every member of
the top share-count group when that group is tied or no second group
exists; otherwise it pays majorityBonus to the single top player and
floor(minorityBonus / |second group|) to every member of the second group;
everyone else is paid nothing, and all divisions are integer floors. -/
theorem distributeBonuses_spec (corps : CorpMap) (players : List Player)
    (name : String) (h : ∃ p ∈ players, 0 < getStock p name) :
    (distributeBonuses corps players name).length = players.length ∧
    ∀ i : Nat,
      ((distributeBonuses corps players name).getD i dummyPlayer).balance
        = (players.getD i dummyPlayer).balance
          + claimPayout corps players name (players.getD i dummyPlayer) := by
  have hSHne : shareholders players name ≠ [] := by
    obtain ⟨p, hp, hpos⟩ := h
    intro he
    have : p ∈ shareholders players name := by
      unfold shareholders
      rw [List.mem_filter]
      exact ⟨hp, by simpa using hpos⟩
    rw [he] at this
    simp at this
  obtain ⟨hmaj, hmin⟩ := findShareholderGroups_bridge players name hSHne
  have hdummyTop := dummyPlayer_not_mem_topGroup players name
  have hdummySec := dummyPlayer_not_mem_secondGroup players name
  unfold distributeBonuses claimPayout
  dsimp only
  rw [hmaj, hmin]
  by_cases hcond : 1 < (topGroup players name).length ∨
      (secondGroup players name).length = 0
  · simp only [if_pos hcond]
    refine ⟨payAll_length _ _ _, ?_⟩
    intro i
    rw [payAll_getD _ _ _ _ hdummyTop]
    by_cases hmem : players.getD i dummyPlayer ∈ topGroup players name
    · rw [if_pos hmem, if_pos hmem, balance_addIncome]
    · rw [if_neg hmem, if_neg hmem]
      omega
  · simp only [if_neg hcond]
    push_neg at hcond
    obtain ⟨hlen1, hlen2⟩ := hcond
    -- the top group is a singleton
    have htopne : topGroup players name ≠ [] := by
      cases hc : shareholders players name with
      | nil => exact absurd hc hSHne
      | cons a l =>
        have hposS : ∀ x ∈ (shareholders players name).map
            (fun p => getStock p name), 0 < x := by
          intro x hx
          obtain ⟨p, hp, he⟩ := List.mem_map.mp hx
          exact he ▸ mem_shareholders_pos players name p hp
        have haS : getStock a name ∈ (shareholders players name).map
            (fun p => getStock p name) := by
          rw [hc]
          exact List.mem_map_of_mem _ (List.mem_cons_self a l)
        rcases foldl_max_mem_or ((shareholders players name).map
            (fun p => getStock p name)) 0 with hz | hm
        · exfalso
          have h1 := foldl_max_le_of_mem ((shareholders players name).map
            (fun p => getStock p name)) 0 _ haS
          have h2 := hposS _ haS
          omega
        · obtain ⟨q, hq, he⟩ := List.mem_map.mp hm
          intro htg
          have : q ∈ topGroup players name := by
            rw [mem_topGroup_iff]
            exact ⟨hq, by unfold topCount; rw [he]⟩
          rw [htg] at this
          simp at this
    obtain ⟨p0, hp0⟩ : ∃ p0, topGroup players name = [p0] := by
      cases hc : topGroup players name with
      | nil => exact absurd hc htopne
      | cons a l =>
        cases l with
        | nil => exact ⟨a, rfl⟩
        | cons b l2 =>
          exfalso
          rw [hc] at hlen1
          simp at hlen1
    rw [hp0]
    dsimp only
    refine ⟨by rw [payAll_length]; simp, ?_⟩
    intro i
    have hp0top : p0 ∈ topGroup players name := by
      rw [hp0]
      exact List.mem_cons_self p0 []
    have hp0cnt := (mem_topGroup_iff players name p0).mp hp0top
    have hsecne : secondGroup players name ≠ [] := by
      intro he
      rw [he] at hlen2
      simp at hlen2
    have hsecondTrue : hasSecondGroup players name = true := by
      cases hx : secondGroup players name with
      | nil => exact absurd hx hsecne
      | cons a l =>
        have : a ∈ secondGroup players name := by
          rw [hx]; exact List.mem_cons_self a l
        exact (mem_secondGroup _ _ _ this).2.2
    have hslt := secondCount_lt_topCount players name hsecondTrue
    have hp0_not_sec : ∀ q : Player, q.stocks = p0.stocks →
        q ∉ secondGroup players name := by
      intro q hqs hq
      have h1 := (mem_secondGroup _ _ _ hq).2.1
      have h2 : getStock q name = getStock p0 name := by
        unfold getStock
        rw [hqs]
      rw [h2, hp0cnt.2] at h1
      omega
    rw [payAll_getD _ _ _ _ hdummySec]
    rw [getD_map_player _ _ _ (by rw [if_neg (by
      intro he
      exact hdummyTop (he ▸ hp0top))])]
    by_cases hmem : players.getD i dummyPlayer = p0
    · rw [if_pos hmem]
      rw [if_neg (hp0_not_sec ((players.getD i dummyPlayer).addIncome
        (getCorp corps name).stats.majorityPrice) (by rw [hmem]; rfl))]
      rw [if_pos (show players.getD i dummyPlayer ∈ [p0] by
        rw [hmem]; exact List.mem_cons_self p0 [])]
      rw [balance_addIncome]
    · rw [if_neg hmem]
      rw [if_neg (show players.getD i dummyPlayer ∉ [p0] by simpa using hmem)]
      by_cases hm2 : players.getD i dummyPlayer ∈ secondGroup players name
      · rw [if_pos hm2, if_pos hm2, balance_addIncome]
      · rw [if_neg hm2, if_neg hm2]
        omega

/-- C3 witness: scenario C of the spec — counts 5, 5, 2 with price 200:
the tied top players each get floor(3000 / 2) = 1500, the third player
nothing. -/
theorem distributeBonuses_spec_witness :
    ((distributeBonuses corpsEx
        [mkPlayer "p1" 0 5 0, mkPlayer "p2" 0 5 0, mkPlayer "p3" 0 2 0]
        "phoenix").getD 0 dummyPlayer).balance = 1500 ∧
    ((distributeBonuses corpsEx
        [mkPlayer "p1" 0 5 0, mkPlayer "p2" 0 5 0, mkPlayer "p3" 0 2 0]
        "phoenix").getD 1 dummyPlayer).balance = 1500 ∧
    ((distributeBonuses corpsEx
        [mkPlayer "p1" 0 5 0, mkPlayer "p2" 0 5 0, mkPlayer "p3" 0 2 0]
        "phoenix").getD 2 dummyPlayer).balance = 0 := by
  have h := distributeBonuses_spec corpsEx
    [mkPlayer "p1" 0 5 0, mkPlayer "p2" 0 5 0, mkPlayer "p3" 0 2 0]
    "phoenix" ⟨mkPlayer "p1" 0 5 0, by decide, by decide⟩
  refine ⟨?_, ?_, ?_⟩
  · rw [h.2 0]; decide
  · rw [h.2 1]; decide
  · rw [h.2 2]; decide

/-! ## C9: changeTurn and the game-end condition -/

theorem turnCount_refill (g : Game) :
    (refillPlayerTile g).turnCount = g.turnCount := by
  unfold refillPlayerTile
  cases currentPlayer g <;> rfl

theorem turnCount_endTurnCurrent (g : Game) :
    (endTurnCurrent g).turnCount = g.turnCount := by
  unfold endTurnCurrent
  cases currentPlayer g <;> rfl

theorem turnCount_startTurnCurrent (g : Game) :
    (startTurnCurrent g).turnCount = g.turnCount := by
  unfold startTurnCurrent
  cases currentPlayer g <;> rfl

theorem checkGameEnd_iff (corps : CorpMap) :
    checkGameEnd corps = true ↔
      ((∃ kv ∈ corps, kv.2.isActive = true) ∧
       ((∃ kv ∈ corps, kv.2.isActive = true ∧ GAME_END_SIZE ≤ kv.2.size) ∨
        (∀ kv ∈ corps, kv.2.isActive = true → kv.2.isSafe = true))) := by
  unfold checkGameEnd
  by_cases hlen : (corps.filter (fun kv => kv.2.isActive)).length = 0
  · rw [if_pos hlen]
    constructor
    · intro h
      exact absurd h Bool.false_ne_true
    · rintro ⟨⟨kv, hmem, hact⟩, _⟩
      exfalso
      have hf : kv ∈ corps.filter (fun kv => kv.2.isActive) :=
        List.mem_filter.mpr ⟨hmem, by simp [hact]⟩
      rw [List.length_eq_zero] at hlen
      rw [hlen] at hf
      simp at hf
  · rw [if_neg hlen]
    simp only [decide_eq_true_eq, List.any_eq_true, List.all_eq_true,
      List.mem_filter, decide_eq_true_eq]
    constructor
    · intro h
      refine ⟨?_, ?_⟩
      · have hne : corps.filter (fun kv => kv.2.isActive) ≠ [] := by
          intro e
          exact hlen (by rw [e]; rfl)
        obtain ⟨kv, hkv⟩ := List.exists_mem_of_ne_nil _ hne
        have hm := List.mem_filter.mp hkv
        exact ⟨kv, hm.1, hm.2⟩
      · rcases h with ⟨kv, ⟨hm, ha⟩, hs⟩ | hall
        · exact Or.inl ⟨kv, hm, ha, hs⟩
        · exact Or.inr (fun kv hm hact => hall kv ⟨hm, hact⟩)
    · rintro ⟨hex, h2⟩
      rcases h2 with ⟨kv, hm, ha, hs⟩ | hall
      · exact Or.inl ⟨kv, ⟨hm, ha⟩, hs⟩
      · exact Or.inr (fun kv hmf => hall kv hmf.1 hmf.2)

/-- C9: changeTurn enters the game-end state, instead of starting the next
turn, exactly when at least one corporation is active and either some
active corporation has size at least 41 or every active corporation is
safe; otherwise the next turn starts: state place-tile and the turn count
advances by one. In particular a size-41 active corporation forces the
game-end state at the next end-turn. -/
theorem changeTurn_game_end_iff (g : Game) :
    ((changeTurn g).state = .gameEnd ↔
      ((∃ kv ∈ g.corporations, kv.2.isActive = true) ∧
       ((∃ kv ∈ g.corporations, kv.2.isActive = true ∧ 41 ≤ kv.2.size) ∨
        (∀ kv ∈ g.corporations, kv.2.isActive = true → kv.2.isSafe = true)))) ∧
    ((changeTurn g).state = .gameEnd → (changeTurn g).turnCount = g.turnCount) ∧
    (¬ (changeTurn g).state = .gameEnd →
      ((changeTurn g).state = .placeTile ∧
       (changeTurn g).turnCount = g.turnCount + 1)) := by
  by_cases hend : checkGameEnd g.corporations = true
  · have hstate : (changeTurn g).state = .gameEnd := by
      unfold changeTurn
      rw [if_pos hend]
      rfl
    have hcount : (changeTurn g).turnCount = g.turnCount := by
      unfold changeTurn
      rw [if_pos hend]
      rfl
    have hc := (checkGameEnd_iff g.corporations).mp hend
    exact ⟨⟨fun _ => hc, fun _ => hstate⟩, fun _ => hcount,
      fun hne => absurd hstate hne⟩
  · have hstate : (changeTurn g).state = .placeTile := by
      unfold changeTurn
      rw [if_neg hend]
      rfl
    have hcount : (changeTurn g).turnCount = g.turnCount + 1 := by
      unfold changeTurn
      rw [if_neg hend]
      show (startTurnCurrent _).turnCount = g.turnCount + 1
      rw [turnCount_startTurnCurrent]
      show (endTurnCurrent (refillPlayerTile g)).turnCount + 1 = g.turnCount + 1
      rw [turnCount_endTurnCurrent, turnCount_refill]
    have hne : ¬ (changeTurn g).state = .gameEnd := by
      rw [hstate]
      intro e
      exact absurd e (by decide)
    refine ⟨⟨fun hgend => absurd hgend hne, fun hc => ?_⟩,
      fun hgend => absurd hgend hne, fun _ => ⟨hstate, hcount⟩⟩
    exact absurd ((checkGameEnd_iff g.corporations).mpr hc) hend

/-- C9 witness: with a single active corporation of size 41 the end-turn
call lands in the game-end state. -/
theorem changeTurn_game_end_iff_witness :
    (changeTurn gameSize41).state = .gameEnd := by
  exact (changeTurn_game_end_iff gameSize41).1.mpr (by decide)

/-! ## C8: tile-placement dispatch against the transition table -/

theorem state_initiate_force (g : Game) (s : GameState) (k : String) :
    (initiateActivity (force g s) k).state = s := rfl

theorem state_mergeTwoCorporation (g : Game) (a d : String) :
    (mergeTwoCorporation g a d).state = .merge := rfl

theorem state_handleMergeConflict (g : Game) :
    (handleMergeConflict g).state = .mergeConflict := rfl

theorem state_handleMultipleDefunct (g : Game) (l : List Corporation) :
    (handleMultipleDefunct g l).state = .defunctSelection := rfl

theorem state_markUnplayableTiles (g : Game) :
    (markUnplayableTiles g).state = g.state := rfl

theorem state_growCorporation (g : Game) (name : String) :
    (growCorporation g name).state = g.state := by
  unfold growCorporation
  dsimp only
  split
  all_goals split
  all_goals first
    | rw [state_markUnplayableTiles]
    | rfl

theorem state_handleMultipleMerge (g : Game) :
    (handleMultipleMerge g).state = g.state ∨
    (handleMultipleMerge g).state = .acquirerSelection ∨
    (handleMultipleMerge g).state = .defunctSelection ∨
    (handleMultipleMerge g).state = .merge := by
  unfold handleMultipleMerge
  cases hfm : findMergingCorporations g with
  | nil => exact Or.inl rfl
  | cons m0 rest =>
    dsimp only
    by_cases hacq : 1 < ((m0 :: rest).filter (fun c => c.size = m0.size)).length
    · rw [if_pos hacq]
      exact Or.inr (Or.inl rfl)
    · rw [if_neg hacq]
      cases hpa : (m0 :: rest).filter (fun c => c.size = m0.size) with
      | nil => exact Or.inl rfl
      | cons acq arest =>
        dsimp only
        cases hpd : (m0 :: rest).filter (fun c => ¬ c.size = m0.size) with
        | nil => exact Or.inl rfl
        | cons d0 drest =>
          dsimp only
          by_cases heq : 1 < ((d0 :: drest).filter (fun c => c.size = d0.size)).length
          · rw [if_pos heq]
            exact Or.inr (Or.inr (Or.inl (state_handleMultipleDefunct _ _)))
          · rw [if_neg heq]
            exact Or.inr (Or.inr (Or.inr (state_mergeTwoCorporation _ _ _)))

/-- C8 amended: the tile-placement dispatch, run with the game in the
place-tile state, either leaves the state unchanged (only in the branches
where the JS would throw on a malformed component) or moves it to a state
in the transition-table row of place-tile — except the multi-merge case
with a unique largest acquirer and several size-tied defuncts, which moves
place-tile directly to defunct-selection, an edge missing from the table. -/
theorem handleTilePlacement_states (g : Game) (h : g.state = .placeTile) :
    (handleTilePlacement g).state = g.state ∨
    (handleTilePlacement g).state ∈ STATE_TRANSITIONS .placeTile ∨
    (handleTilePlacement g).state = .defunctSelection := by
  unfold handleTilePlacement
  by_cases h1 : canEstablishCorporation g = true
  · rw [if_pos h1]
    exact Or.inr (Or.inl (by rw [state_initiate_force]; decide))
  · rw [if_neg h1]
    by_cases h2 : canGrowCorporation g = true
    · rw [if_pos h2]
      cases hfind : (groupKeys g.connectedTiles).find? (fun n => ¬ n = "incorporated") with
      | none => exact Or.inl rfl
      | some corpName =>
        dsimp only
        refine Or.inr (Or.inl ?_)
        rw [state_initiate_force]
        decide
    · rw [if_neg h2]
      by_cases h3 : hasMergeConflict g = true
      · rw [if_pos h3]
        exact Or.inr (Or.inl (by rw [state_handleMergeConflict]; decide))
      · rw [if_neg h3]
        by_cases h4 : hasMultipleMerge g = true
        · rw [if_pos h4]
          rcases state_handleMultipleMerge g with hs | hs | hs | hs
          · exact Or.inl hs
          · exact Or.inr (Or.inl (by rw [hs]; decide))
          · exact Or.inr (Or.inr hs)
          · exact Or.inr (Or.inl (by rw [hs]; decide))
        · rw [if_neg h4]
          by_cases h5 : hasTwoCorpMerge g = true
          · rw [if_pos h5]
            cases hfm : findMergingCorporations g with
            | nil => exact Or.inl rfl
            | cons acq rest =>
              cases rest with
              | nil => exact Or.inl rfl
              | cons d drest =>
                exact Or.inr (Or.inl (by
                  rw [state_mergeTwoCorporation]
                  decide))
          · rw [if_neg h5]
            exact Or.inr (Or.inl (by rw [state_initiate_force]; decide))

/-- C8 amended witness: the dispatch of a lone tile (empty component) moves
place-tile to buy-stocks, an edge of the table. -/
theorem handleTilePlacement_states_witness :
    (handleTilePlacement gameBuyStatePlace).state = gameBuyStatePlace.state ∨
    (handleTilePlacement gameBuyStatePlace).state ∈ STATE_TRANSITIONS .placeTile ∨
    (handleTilePlacement gameBuyStatePlace).state = .defunctSelection := by
  exact handleTilePlacement_states gameBuyStatePlace rfl

/-- C8 counterexample: a placement at (1,1) joining one largest corporation
and two size-tied smaller ones takes the game from place-tile straight to
defunct-selection, and defunct-selection is not in the transition table's
place-tile row. -/
theorem placeTile_defunct_selection_counterexample :
    gameMulti.state = .placeTile ∧
    (Game.placeTile gameMulti "alice" ⟨1, 1⟩).2 = none ∧
    (Game.placeTile gameMulti "alice" ⟨1, 1⟩).1.state = .defunctSelection ∧
    GameState.defunctSelection ∉ STATE_TRANSITIONS .placeTile := by
  refine ⟨rfl, rfl, rfl, by decide⟩

/-! ## C1: placeTile mutates before it rejects -/

/-- C1: Game.placeTile pushes the tile onto the board and records the
activity data before Player.placeTile validates the hand, so a rejected
call (here: the player holds no tile at (5,5)) returns the error yet
leaves the board one tile larger and the transcript one event longer; the
players (hands and balances) are untouched, against the specification's
promise that a rejected mutation changes nothing. -/
theorem placeTile_rejected_but_mutated :
    gameMulti.state = .placeTile ∧
    (Game.placeTile gameMulti "alice" ⟨5, 5⟩).2
      = some "Tile not found in player's hand" ∧
    (Game.placeTile gameMulti "alice" ⟨5, 5⟩).1.board
      = gameMulti.board
        ++ [{ position := ⟨5, 5⟩, isPlaced := true, belongsTo := "incorporated" }] ∧
    (Game.placeTile gameMulti "alice" ⟨5, 5⟩).1.turnRec.current.length
      = gameMulti.turnRec.current.length + 1 ∧
    (Game.placeTile gameMulti "alice" ⟨5, 5⟩).1.players = gameMulti.players := by
  refine ⟨rfl, rfl, rfl, rfl, rfl⟩

end Acquire
